import Mathlib

set_option autoImplicit false

/-!
Verification of the credential-encryption subsystem of the
restful-booker API automation framework.

The development shallowly embeds the TypeScript sources
`src/cryptography/services/encryptionService.ts`,
`src/cryptography/services/environmentEncryptionManager.ts`,
`src/cryptography/keyManagement/secureKeyGenerator.ts` and the
`CRYPTO_CONFIG` constant.  External runtime facilities (Node `crypto`,
`argon2`, `TextEncoder`/`TextDecoder`, the entropy source) are modelled
as abstract primitives gathered in a `Prims` record; the JavaScript
string, JSON and base64 ("Buffer") operations the code relies on are
modelled concretely below.  Bytes are `Nat` values `< 256`.
-/

/-! ### JavaScript-style string primitives (modelled on `List Char`) -/

/-- Whitespace recognised by the model of JS `String.prototype.trim` /
JSON whitespace (the characters that occur in environment files). -/
def isWsChar (c : Char) : Bool :=
  c == ' ' || c == '\t' || c == '\n' || c == '\r'

/-- The `\x7b` character (left curly brace). -/
def lbrace : Char := Char.ofNat 123

/-- The `\x7d` character (right curly brace). -/
def rbrace : Char := Char.ofNat 125

/-- Split a character list at every occurrence of `sep`; model of JS
`String.prototype.split` with a single-character separator.
`acc` holds the (reversed) current segment. -/
def splitSepChars (sep : Char) (acc : List Char) : List Char → List (List Char)
  | [] => [acc.reverse]
  | c :: cs =>
    if c = sep then acc.reverse :: splitSepChars sep [] cs
    else splitSepChars sep (c :: acc) cs

/-- JS `s.split(sep)` for a one-character separator. -/
def jsSplit (sep : Char) (s : String) : List String :=
  (splitSepChars sep [] s.data).map String.mk

/-- Interleave `sep` between the segments; model of JS `Array.prototype.join`
with a single-character separator. -/
def joinSepChars (sep : Char) : List (List Char) → List Char
  | [] => []
  | [l] => l
  | l :: ls => l ++ sep :: joinSepChars sep ls

/-- JS `parts.join(sep)` for a one-character separator. -/
def jsJoin (sep : Char) (parts : List String) : String :=
  String.mk (joinSepChars sep (parts.map String.data))

/-- Trim whitespace from both ends of a character list. -/
def trimChars (l : List Char) : List Char :=
  ((l.dropWhile isWsChar).reverse.dropWhile isWsChar).reverse

/-- Model of JS `String.prototype.trim`. -/
def jsTrim (s : String) : String := String.mk (trimChars s.data)

/-- Model of JS `String.prototype.startsWith`. -/
def jsStartsWith (s p : String) : Bool := p.data.isPrefixOf s.data

/-- Model of JS `String.prototype.endsWith`. -/
def jsEndsWith (s p : String) : Bool := p.data.isSuffixOf s.data

/-- Model of JS `String.prototype.includes` for a single character. -/
def jsContainsChar (s : String) (c : Char) : Bool := s.data.contains c

theorem splitSepChars_ne_nil (sep : Char) (acc l : List Char) :
    splitSepChars sep acc l ≠ [] := by
  induction l generalizing acc with
  | nil => simp [splitSepChars]
  | cons c cs ih =>
    by_cases h : c = sep
    · simp [splitSepChars, h]
    · simpa [splitSepChars, h] using ih (c :: acc)

theorem joinSepChars_cons_of_ne (sep : Char) (l : List Char)
    (ls : List (List Char)) (h : ls ≠ []) :
    joinSepChars sep (l :: ls) = l ++ sep :: joinSepChars sep ls := by
  cases ls with
  | nil => exact absurd rfl h
  | cons x xs => rfl

theorem joinSepChars_splitSepChars (sep : Char) :
    ∀ (l acc : List Char),
      joinSepChars sep (splitSepChars sep acc l) = acc.reverse ++ l := by
  intro l
  induction l with
  | nil => intro acc; simp [splitSepChars, joinSepChars]
  | cons c cs ih =>
    intro acc
    by_cases h : c = sep
    · subst h
      simp only [splitSepChars, eq_self_iff_true, if_true]
      rw [joinSepChars_cons_of_ne _ _ _ (splitSepChars_ne_nil _ _ _), ih]
      simp
    · simp only [splitSepChars, if_neg h]
      rw [ih (c :: acc)]
      simp

theorem not_sep_mem_splitSepChars (sep : Char) :
    ∀ (l acc : List Char), sep ∉ acc →
      ∀ m ∈ splitSepChars sep acc l, sep ∉ m := by
  intro l
  induction l with
  | nil =>
    intro acc hacc m hm
    simp only [splitSepChars, List.mem_singleton] at hm
    subst hm
    simpa using hacc
  | cons c cs ih =>
    intro acc hacc m hm
    by_cases h : c = sep
    · subst h
      simp only [splitSepChars, eq_self_iff_true, if_true, List.mem_cons] at hm
      rcases hm with hm | hm
      · subst hm; simpa using hacc
      · exact ih [] (by simp) m hm
    · simp only [splitSepChars, if_neg h] at hm
      refine ih (c :: acc) ?_ m hm
      simp only [List.mem_cons, not_or]
      exact ⟨fun hc => h hc.symm, hacc⟩

theorem splitSepChars_of_not_mem (sep : Char) :
    ∀ (l acc : List Char), sep ∉ l →
      splitSepChars sep acc l = [acc.reverse ++ l] := by
  intro l
  induction l with
  | nil => intro acc _; simp [splitSepChars]
  | cons c cs ih =>
    intro acc hl
    have hc : ¬ c = sep := fun h => hl (by simp [h])
    have hcs : sep ∉ cs := fun h => hl (List.mem_cons_of_mem _ h)
    simp only [splitSepChars, if_neg hc]
    rw [ih (c :: acc) hcs]
    simp

theorem splitSepChars_append_sep (sep : Char) :
    ∀ (l₁ acc l₂ : List Char), sep ∉ l₁ →
      splitSepChars sep acc (l₁ ++ sep :: l₂)
        = (acc.reverse ++ l₁) :: splitSepChars sep [] l₂ := by
  intro l₁
  induction l₁ with
  | nil =>
    intro acc l₂ _
    simp [splitSepChars]
  | cons c cs ih =>
    intro acc l₂ hl
    have hc : ¬ c = sep := fun h => hl (by simp [h])
    have hcs : sep ∉ cs := fun h => hl (List.mem_cons_of_mem _ h)
    simp only [List.cons_append, splitSepChars, if_neg hc, List.append_eq]
    rw [ih (c :: acc) l₂ hcs]
    simp

theorem splitSepChars_joinSepChars (sep : Char) :
    ∀ (ls : List (List Char)), ls ≠ [] → (∀ m ∈ ls, sep ∉ m) →
      splitSepChars sep [] (joinSepChars sep ls) = ls := by
  intro ls
  induction ls with
  | nil => intro h; exact absurd rfl h
  | cons l ls ih =>
    intro _ hmem
    cases ls with
    | nil =>
      show splitSepChars sep [] (joinSepChars sep [l]) = [l]
      rw [show joinSepChars sep [l] = l from rfl,
        splitSepChars_of_not_mem sep l [] (hmem l (by simp))]
      simp
    | cons l₂ ls₂ =>
      rw [joinSepChars_cons_of_ne _ _ _ (by simp),
        splitSepChars_append_sep sep l [] _ (hmem l (by simp))]
      simp only [List.reverse_nil, List.nil_append]
      rw [ih (by simp) (fun m hm => hmem m (List.mem_cons_of_mem _ hm))]

/-! ### Trim lemmas -/

theorem dropWhile_eq_self_of_head (p : Char → Bool) :
    ∀ (l : List Char), (∀ hd, l.head? = some hd → ¬ p hd) → l.dropWhile p = l := by
  intro l h
  cases l with
  | nil => rfl
  | cons c cs =>
    have : ¬ p c := h c rfl
    simp [List.dropWhile, this]

theorem head_dropWhile_not (p : Char → Bool) :
    ∀ (l : List Char) (hd : Char), (l.dropWhile p).head? = some hd → ¬ p hd := by
  intro l
  induction l with
  | nil => intro hd h; simp [List.dropWhile] at h
  | cons c cs ih =>
    intro hd h
    by_cases hc : p c
    · exact ih hd (by simpa [List.dropWhile, hc] using h)
    · simp only [List.dropWhile, hc] at h
      simp only [List.head?, Option.some.injEq] at h
      subst h; exact hc

theorem trimChars_eq_self (l : List Char)
    (h₁ : ∀ hd, l.head? = some hd → ¬ isWsChar hd)
    (h₂ : ∀ lst, l.getLast? = some lst → ¬ isWsChar lst) :
    trimChars l = l := by
  unfold trimChars
  rw [dropWhile_eq_self_of_head _ l h₁]
  rw [dropWhile_eq_self_of_head _ l.reverse (by
    intro hd hh
    exact h₂ hd (by rwa [List.head?_reverse] at hh))]
  simp

theorem dropWhile_is_suffix (p : Char → Bool) :
    ∀ (l : List Char), ∃ t, l = t ++ l.dropWhile p := by
  intro l
  induction l with
  | nil => exact ⟨[], rfl⟩
  | cons c cs ih =>
    by_cases hc : p c
    · rcases ih with ⟨t, ht⟩
      exact ⟨c :: t, by simp [List.dropWhile, hc]; exact ht⟩
    · exact ⟨[], by simp [List.dropWhile, hc]⟩

theorem getLast?_append_right {α : Type} (l₁ l₂ : List α) (h : l₂ ≠ []) :
    (l₁ ++ l₂).getLast? = l₂.getLast? := by
  rw [List.getLast?_append]
  have : l₂.getLast?.isSome := List.getLast?_isSome.mpr h
  rcases Option.isSome_iff_exists.mp this with ⟨x, hx⟩
  rw [hx]
  rfl

theorem getLast?_dropWhile_of_ne_nil (p : Char → Bool) (l : List Char)
    (h : l.dropWhile p ≠ []) : (l.dropWhile p).getLast? = l.getLast? := by
  rcases dropWhile_is_suffix p l with ⟨t, ht⟩
  conv_rhs => rw [ht]
  rw [getLast?_append_right _ _ h]

theorem trimChars_getLast_not_ws (l : List Char) (lst : Char)
    (h : (trimChars l).getLast? = some lst) : ¬ isWsChar lst := by
  unfold trimChars at h
  rw [List.getLast?_reverse] at h
  exact head_dropWhile_not _ _ _ h

theorem trimChars_head_not_ws (l : List Char) (hd : Char)
    (h : (trimChars l).head? = some hd) : ¬ isWsChar hd := by
  unfold trimChars at h
  rw [List.head?_reverse] at h
  have hne : (l.dropWhile isWsChar).reverse.dropWhile isWsChar ≠ [] := by
    intro hnil; rw [hnil] at h; simp at h
  rw [getLast?_dropWhile_of_ne_nil _ _ hne, List.getLast?_reverse] at h
  exact head_dropWhile_not _ _ _ h

theorem trimChars_subset (l : List Char) : ∀ c ∈ trimChars l, c ∈ l := by
  intro c hc
  unfold trimChars at hc
  rw [List.mem_reverse] at hc
  have h₁ := (List.dropWhile_sublist (l := (l.dropWhile isWsChar).reverse)
    (p := isWsChar)).subset hc
  rw [List.mem_reverse] at h₁
  exact (List.dropWhile_sublist (l := l) (p := isWsChar)).subset h₁

theorem trimChars_idem (l : List Char) : trimChars (trimChars l) = trimChars l :=
  trimChars_eq_self _ (trimChars_head_not_ws l) (trimChars_getLast_not_ws l)

theorem trimChars_append_eq_self (a b : List Char) (ha : a ≠ []) (hb : b ≠ [])
    (hhd : ∀ hd, a.head? = some hd → ¬ isWsChar hd)
    (hlst : ∀ lst, b.getLast? = some lst → ¬ isWsChar lst) :
    trimChars (a ++ b) = a ++ b := by
  refine trimChars_eq_self _ ?_ ?_
  · intro hd h
    rw [List.head?_append_of_ne_nil _ ha] at h
    exact hhd hd h
  · intro lst h
    rw [getLast?_append_right _ _ hb] at h
    exact hlst lst h

/-! ### Base64 (model of Node `Buffer.toString('base64')` / `Buffer.from(s,'base64')`) -/

/-- The standard base64 alphabet. -/
def b64Alphabet : List Char :=
  "ABCDEFGHIJKLMNOPQRSTUVWXYZabcdefghijklmnopqrstuvwxyz0123456789+/".data

/-- The character encoding a sextet. -/
def b64Char (n : Nat) : Char := b64Alphabet.getD n 'A'

/-- The sextet encoded by a character, if any. -/
def b64CharIndex (c : Char) : Option Nat := b64Alphabet.findIdx? (· == c)

/-- Base64-encode a byte list, three bytes to four characters, padding the
final partial group with `=` as Node does. -/
def b64EncodeBytes : List Nat → List Char
  | [] => []
  | [a] => [b64Char (a / 4), b64Char (a % 4 * 16), '=', '=']
  | [a, b] => [b64Char (a / 4), b64Char (a % 4 * 16 + b / 16), b64Char (b % 16 * 4), '=']
  | a :: b :: c :: rest =>
    b64Char (a / 4) :: b64Char (a % 4 * 16 + b / 16) ::
      b64Char (b % 16 * 4 + c / 64) :: b64Char (c % 64) :: b64EncodeBytes rest

/-- Model of `buffer.toString('base64')`. -/
def b64Encode (bs : List Nat) : String := String.mk (b64EncodeBytes bs)

/-- Base64-decode; defined on the well-formed strings produced by
`b64EncodeBytes` (Node's decoder is more lenient on other inputs). -/
def b64DecodeChars : List Char → Option (List Nat)
  | [] => some []
  | c1 :: c2 :: c3 :: c4 :: rest => do
    let n1 ← b64CharIndex c1
    let n2 ← b64CharIndex c2
    if c3 = '=' ∧ c4 = '=' ∧ rest = [] then
      pure [n1 * 4 + n2 / 16]
    else do
      let n3 ← b64CharIndex c3
      if c4 = '=' ∧ rest = [] then
        pure [n1 * 4 + n2 / 16, n2 % 16 * 16 + n3 / 4]
      else do
        let n4 ← b64CharIndex c4
        let tail ← b64DecodeChars rest
        pure ((n1 * 4 + n2 / 16) :: (n2 % 16 * 16 + n3 / 4) :: (n3 % 4 * 64 + n4) :: tail)
  | _ => none

/-- Model of `Buffer.from(s, 'base64')` (junk on undecodable input, which the
embedded code never hits on the envelopes it produces). -/
def b64DecodeStr (s : String) : List Nat := (b64DecodeChars s.data).getD []

theorem b64CharIndex_b64Char : ∀ n, n < 64 → b64CharIndex (b64Char n) = some n := by
  decide

theorem b64Char_ne_pad : ∀ n, n < 64 → b64Char n ≠ '=' := by
  decide

theorem b64Char_mem_alphabet (n : Nat) : b64Char n ∈ b64Alphabet := by
  unfold b64Char List.getD
  cases hx : b64Alphabet.get? n with
  | none => simp only [Option.getD_none]; decide
  | some c => simp only [Option.getD_some]; exact List.get?_mem hx

theorem b64EncodeBytes_mem (bs : List Nat) :
    ∀ c ∈ b64EncodeBytes bs, c ∈ b64Alphabet ∨ c = '=' := by
  induction bs using b64EncodeBytes.induct with
  | case1 => intro c hc; simp [b64EncodeBytes] at hc
  | case2 a =>
    intro c hc
    simp only [b64EncodeBytes, List.mem_cons, List.mem_singleton] at hc
    rcases hc with h | h | h | h | h
    · exact Or.inl (h ▸ b64Char_mem_alphabet _)
    · exact Or.inl (h ▸ b64Char_mem_alphabet _)
    · exact Or.inr h
    · exact Or.inr h
    · exact absurd h (List.not_mem_nil c)
  | case3 a b =>
    intro c hc
    simp only [b64EncodeBytes, List.mem_cons, List.mem_singleton] at hc
    rcases hc with h | h | h | h | h
    · exact Or.inl (h ▸ b64Char_mem_alphabet _)
    · exact Or.inl (h ▸ b64Char_mem_alphabet _)
    · exact Or.inl (h ▸ b64Char_mem_alphabet _)
    · exact Or.inr h
    · exact absurd h (List.not_mem_nil c)
  | case4 a b c rest ih =>
    intro d hd
    simp only [b64EncodeBytes, List.mem_cons] at hd
    rcases hd with h | h | h | h | h
    · exact Or.inl (h ▸ b64Char_mem_alphabet _)
    · exact Or.inl (h ▸ b64Char_mem_alphabet _)
    · exact Or.inl (h ▸ b64Char_mem_alphabet _)
    · exact Or.inl (h ▸ b64Char_mem_alphabet _)
    · exact ih d h

theorem b64EncodeBytes_length (bs : List Nat) :
    (b64EncodeBytes bs).length = (bs.length + 2) / 3 * 4 := by
  induction bs using b64EncodeBytes.induct with
  | case1 => simp [b64EncodeBytes]
  | case2 a => simp [b64EncodeBytes]
  | case3 a b => simp [b64EncodeBytes]
  | case4 a b c rest ih =>
    simp only [b64EncodeBytes, List.length_cons, ih, List.length_cons]
    omega

theorem b64EncodeBytes_ne_nil (bs : List Nat) (h : bs ≠ []) :
    b64EncodeBytes bs ≠ [] := by
  match bs with
  | [] => exact absurd rfl h
  | [a] => simp [b64EncodeBytes]
  | [a, b] => simp [b64EncodeBytes]
  | a :: b :: c :: rest => simp [b64EncodeBytes]

theorem b64_decode_encode : ∀ (bs : List Nat), (∀ b ∈ bs, b < 256) →
    b64DecodeChars (b64EncodeBytes bs) = some bs := by
  intro bs
  induction bs using b64EncodeBytes.induct with
  | case1 => intro _; simp [b64EncodeBytes, b64DecodeChars]
  | case2 a =>
    intro h
    have ha : a < 256 := h a (by simp)
    simp only [b64EncodeBytes, b64DecodeChars,
      b64CharIndex_b64Char (a / 4) (by omega),
      b64CharIndex_b64Char (a % 4 * 16) (by omega)]
    simp only [Option.bind_eq_bind, Option.some_bind]
    rw [if_pos ⟨trivial, trivial, trivial⟩]
    have e1 : a / 4 * 4 + a % 4 * 16 / 16 = a := by omega
    rw [e1]
    rfl
  | case3 a b =>
    intro h
    have ha : a < 256 := h a (by simp)
    have hb : b < 256 := h b (by simp)
    simp only [b64EncodeBytes, b64DecodeChars,
      b64CharIndex_b64Char (a / 4) (by omega),
      b64CharIndex_b64Char (a % 4 * 16 + b / 16) (by omega),
      b64CharIndex_b64Char (b % 16 * 4) (by omega)]
    simp only [Option.bind_eq_bind, Option.some_bind]
    rw [if_neg (by
      intro hcon
      exact b64Char_ne_pad (b % 16 * 4) (by omega) hcon.1)]
    rw [if_pos ⟨trivial, trivial⟩]
    have e1 : a / 4 * 4 + (a % 4 * 16 + b / 16) / 16 = a := by omega
    have e2 : (a % 4 * 16 + b / 16) % 16 * 16 + b % 16 * 4 / 4 = b := by omega
    rw [e1, e2]
    rfl
  | case4 a b c rest ih =>
    intro h
    have ha : a < 256 := h a (by simp)
    have hb : b < 256 := h b (by simp)
    have hc : c < 256 := h c (by simp)
    have ihr := ih (fun x hx => h x (by simp [hx]))
    simp only [b64EncodeBytes, b64DecodeChars,
      b64CharIndex_b64Char (a / 4) (by omega),
      b64CharIndex_b64Char (a % 4 * 16 + b / 16) (by omega),
      b64CharIndex_b64Char (b % 16 * 4 + c / 64) (by omega),
      b64CharIndex_b64Char (c % 64) (by omega)]
    simp only [Option.bind_eq_bind, Option.some_bind]
    rw [if_neg (by
      intro hcon
      exact b64Char_ne_pad (b % 16 * 4 + c / 64) (by omega) hcon.1)]
    rw [if_neg (by
      intro hcon
      exact b64Char_ne_pad (c % 64) (by omega) hcon.1)]
    rw [ihr]
    simp only [Option.some_bind]
    have e1 : a / 4 * 4 + (a % 4 * 16 + b / 16) / 16 = a := by omega
    have e2 : (a % 4 * 16 + b / 16) % 16 * 16 + (b % 16 * 4 + c / 64) / 4 = b := by omega
    have e3 : (b % 16 * 4 + c / 64) % 4 * 64 + c % 64 = c := by omega
    rw [e1, e2, e3]
    rfl

/-! ### JSON (model of the ECMAScript `JSON.parse` used by the code) -/

/-- Parsed JSON values.  Numbers keep their source lexeme (the code never
computes with them). -/
inductive Json where
  | null
  | bool (b : Bool)
  | num (lexeme : String)
  | str (s : String)
  | arr (elements : List Json)
  | obj (members : List (String × Json))

/-- Property insertion with JS object semantics: an existing key keeps its
position and gets the new value, a new key is appended. -/
def jsonInsert (m : List (String × Json)) (k : String) (v : Json) :
    List (String × Json) :=
  if m.any (fun p => p.1 == k) then m.map (fun p => if p.1 == k then (k, v) else p)
  else m ++ [(k, v)]

/-- Skip JSON whitespace. -/
def skipWsChars (l : List Char) : List Char := l.dropWhile isWsChar

/-- A single-character JSON string escape. -/
def jsonUnescape : Char → Option Char
  | '"' => some '"'
  | '\\' => some '\\'
  | '/' => some '/'
  | 'b' => some (Char.ofNat 8)
  | 'f' => some (Char.ofNat 12)
  | 'n' => some '\n'
  | 'r' => some '\r'
  | 't' => some '\t'
  | _ => none

/-- Hexadecimal digit value. -/
def hexDigitVal (c : Char) : Option Nat :=
  if c.isDigit then some (c.toNat - 48)
  else if 'a' ≤ c && c ≤ 'f' then some (c.toNat - 87)
  else if 'A' ≤ c && c ≤ 'F' then some (c.toNat - 55)
  else none

/-- Parse the body of a JSON string after the opening quote. -/
def jparseString : List Char → Option (String × List Char)
  | [] => none
  | c :: cs =>
    if c = '"' then some ("", cs)
    else if c = '\\' then
      match cs with
      | 'u' :: h1 :: h2 :: h3 :: h4 :: cs2 =>
        match hexDigitVal h1, hexDigitVal h2, hexDigitVal h3, hexDigitVal h4 with
        | some d1, some d2, some d3, some d4 =>
          (jparseString cs2).map
            (fun r => (String.mk (Char.ofNat (((d1 * 16 + d2) * 16 + d3) * 16 + d4) :: r.1.data), r.2))
        | _, _, _, _ => none
      | e :: cs2 =>
        match jsonUnescape e with
        | some ec => (jparseString cs2).map (fun r => (String.mk (ec :: r.1.data), r.2))
        | none => none
      | [] => none
    else if c.toNat < 32 then none
    else (jparseString cs).map (fun r => (String.mk (c :: r.1.data), r.2))

/-- Longest digit prefix and the remainder. -/
def takeDigitsChars (l : List Char) : List Char × List Char :=
  (l.takeWhile Char.isDigit, l.dropWhile Char.isDigit)

/-- Exponent part of a JSON number (after the `e`/`E`). -/
def jparseExp (sign ds frac : List Char) (e : Char) (r : List Char) :
    Option (Json × List Char) :=
  let (esign, r1) : List Char × List Char :=
    match r with
    | '+' :: t => (['+'], t)
    | '-' :: t => (['-'], t)
    | _ => ([], r)
  let (eds, r2) := takeDigitsChars r1
  if eds = [] then none
  else some (.num (String.mk (sign ++ ds ++ frac ++ e :: (esign ++ eds))), r2)

/-- Parse a JSON number, keeping its lexeme. -/
def jparseNumber (cs : List Char) : Option (Json × List Char) :=
  let (sign, cs1) : List Char × List Char :=
    match cs with
    | '-' :: r => (['-'], r)
    | _ => ([], cs)
  let (ds, cs2) := takeDigitsChars cs1
  if ds = [] then none
  else
    match cs2 with
    | '.' :: r =>
      let (fds, r2) := takeDigitsChars r
      if fds = [] then none
      else
        match r2 with
        | e :: r3 =>
          if e = 'e' ∨ e = 'E' then jparseExp sign ds ('.' :: fds) e r3
          else some (.num (String.mk (sign ++ ds ++ '.' :: fds)), r2)
        | [] => some (.num (String.mk (sign ++ ds ++ '.' :: fds)), r2)
    | e :: r =>
      if e = 'e' ∨ e = 'E' then jparseExp sign ds [] e r
      else some (.num (String.mk (sign ++ ds)), cs2)
    | [] => some (.num (String.mk (sign ++ ds)), cs2)

mutual

/-- Fuel-bounded parser for a JSON value. -/
def jparseValue : Nat → List Char → Option (Json × List Char)
  | 0, _ => none
  | f + 1, cs =>
    match skipWsChars cs with
    | [] => none
    | c :: cs1 =>
      if c = lbrace then
        match skipWsChars cs1 with
        | d :: cs2 => if d = rbrace then some (.obj [], cs2) else jparseMembers f [] cs1
        | [] => none
      else if c = '[' then
        match skipWsChars cs1 with
        | d :: cs2 => if d = ']' then some (.arr [], cs2) else jparseElems f [] cs1
        | [] => none
      else if c = '"' then
        (jparseString cs1).map (fun r => (.str r.1, r.2))
      else if c = 't' then
        match cs1 with
        | 'r' :: 'u' :: 'e' :: r => some (.bool true, r)
        | _ => none
      else if c = 'f' then
        match cs1 with
        | 'a' :: 'l' :: 's' :: 'e' :: r => some (.bool false, r)
        | _ => none
      else if c = 'n' then
        match cs1 with
        | 'u' :: 'l' :: 'l' :: r => some (.null, r)
        | _ => none
      else jparseNumber (c :: cs1)

/-- Fuel-bounded parser for object members (called after the `\x7b`). -/
def jparseMembers : Nat → List (String × Json) → List Char → Option (Json × List Char)
  | 0, _, _ => none
  | f + 1, acc, cs =>
    match skipWsChars cs with
    | '"' :: cs1 =>
      match jparseString cs1 with
      | some (key, cs2) =>
        match skipWsChars cs2 with
        | ':' :: cs3 =>
          match jparseValue f cs3 with
          | some (v, cs4) =>
            match skipWsChars cs4 with
            | ',' :: cs5 => jparseMembers f (jsonInsert acc key v) cs5
            | d :: cs5 => if d = rbrace then some (.obj (jsonInsert acc key v), cs5) else none
            | [] => none
          | none => none
        | _ => none
      | none => none
    | _ => none

/-- Fuel-bounded parser for array elements (called after the `[`). -/
def jparseElems : Nat → List Json → List Char → Option (Json × List Char)
  | 0, _, _ => none
  | f + 1, acc, cs =>
    match jparseValue f cs with
    | some (v, cs1) =>
      match skipWsChars cs1 with
      | ',' :: cs2 => jparseElems f (acc ++ [v]) cs2
      | d :: cs2 => if d = ']' then some (.arr (acc ++ [v]), cs2) else none
      | [] => none
    | none => none

end

/-- Model of `JSON.parse`: `none` models a thrown `SyntaxError`. -/
def parseJson (s : String) : Option Json :=
  match jparseValue (s.data.length + 1) s.data with
  | some (j, rest) => if skipWsChars rest = [] then some j else none
  | none => none

/-- Does an object literal have a member named `k` (JS `k in obj`)? -/
def jsonObjHasProp (m : List (String × Json)) (k : String) : Bool :=
  m.any (fun p => p.1 == k)

/-- Member lookup in an object literal (JS property access). -/
def jsonObjGet (m : List (String × Json)) (k : String) : Option Json :=
  (m.find? (fun p => p.1 == k)).map (fun p => p.2)

/-- JS `k in v` for a parsed JSON value: only object literals carry the
envelope's named properties (arrays only have index and length properties);
the embedded code guards this behind its typeof-object check. -/
def jsHasProp : Json → String → Bool
  | .obj m, k => jsonObjHasProp m k
  | _, _ => false

/-- Is a JSON number lexeme a form of zero (JS falsy)? -/
def numLexemeIsZero (lx : String) : Bool :=
  let l : List Char :=
    match lx.data with
    | '-' :: r => r
    | l => l
  (l.takeWhile (fun c => !(c == 'e') && !(c == 'E'))).all (fun c => c == '0' || c == '.')

/-- JS truthiness of a possibly-absent JSON value (absent models
`undefined`). -/
def jsTruthy : Option Json → Bool
  | none => false
  | some .null => false
  | some (.bool b) => b
  | some (.num lx) => ! numLexemeIsZero lx
  | some (.str s) => ! (s == "")
  | some (.arr _) => true
  | some (.obj _) => true

/-- Characters that pass through JSON string parsing unchanged. -/
def plainChar (c : Char) : Bool :=
  !(c == '"') && !(c == '\\') && !(decide (c.toNat < 32))

theorem jparseString_plain :
    ∀ (s rest : List Char), (∀ c ∈ s, plainChar c) →
      jparseString (s ++ '"' :: rest) = some (String.mk s, rest) := by
  intro s
  induction s with
  | nil =>
    intro rest _
    simp only [List.nil_append]
    rw [jparseString.eq_def]
    simp
  | cons c cs ih =>
    intro rest h
    have hc : plainChar c := h c (by simp)
    simp only [plainChar, Bool.and_eq_true, beq_iff_eq, Bool.not_eq_true',
      decide_eq_false_iff_not] at hc
    obtain ⟨⟨h1, h2⟩, h3⟩ := hc
    have h1' : ¬ c = '"' := by
      intro hq; rw [hq] at h1; simp at h1
    have h2' : ¬ c = '\\' := by
      intro hq; rw [hq] at h2; simp at h2
    simp only [List.cons_append]
    rw [jparseString.eq_def]
    simp only [if_neg h1', if_neg h2', if_neg h3]
    rw [ih rest (fun d hd => h d (by simp [hd]))]
    rfl

/-! ### Errors and external primitives -/

/-- Errors of the embedded subsystem (spec taxonomy §7). -/
inductive Err where
  | invalidLength (source : String)
  | malformedEnvelope (message : String)
  | decryptionFailed
  | typeError
  | fileAccess
  | cryptoFailure (message : String)
deriving DecidableEq

/-- The Argon2 variants of the `argon2` package. -/
inductive Argon2Variant where
  | argon2d
  | argon2i
  | argon2id
deriving DecidableEq

/-- Options the code passes to `argon2.hash`. -/
structure Argon2Options where
  typ : Argon2Variant
  hashLength : Nat
  salt : List Nat
  memoryCost : Nat
  timeCost : Nat
  parallelism : Nat

/-- External cryptographic and text primitives used by the code but not part
of it: Node `crypto.randomBytes`/`getRandomValues` (as a deterministic stream
indexed by a seed threaded through the calls), `argon2.hash` with `raw: true`,
`crypto.subtle.encrypt`/`decrypt` for AES-GCM, and `TextEncoder`/`TextDecoder`.
Theorems assume only the contracts the spec states for them. -/
structure Prims where
  randomBytes : Nat → Nat → List Nat × Nat
  argon2Hash : String → Argon2Options → List Nat
  aeadEncrypt : List Nat → List Nat → List Nat → Except Err (List Nat)
  aeadDecrypt : List Nat → List Nat → List Nat → Option (List Nat)
  utf8Encode : String → List Nat
  utf8Decode : List Nat → String

/-! ### Configuration (`CRYPTO_CONFIG` from `encryption.interface.ts`) -/

/-- `ByteLengths` interface. -/
structure ByteLengths where
  IV : Nat
  WEB_CRYPTO_IV : Nat
  SALT : Nat
  SECRET_KEY : Nat
deriving DecidableEq

/-- `Argon2Parameters` interface. -/
structure Argon2Parameters where
  MEMORY_COST : Nat
  TIME_COST : Nat
  PARALLELISM : Nat
deriving DecidableEq

/-- `CryptoConfig` interface. -/
structure CryptoConfig where
  BYTE_LENGTHS : ByteLengths
  ARGON2_PARAMETERS : Argon2Parameters

/-- The `CRYPTO_CONFIG` constant: IV 16, WEB_CRYPTO_IV 12, SALT 32,
SECRET_KEY 32; memory cost 262144, time cost 4, parallelism 3. -/
def CRYPTO_CONFIG : CryptoConfig := ⟨⟨16, 12, 32, 32⟩, ⟨262144, 4, 3⟩⟩

/-! ### SecureKeyGenerator (`secureKeyGenerator.ts`)

Each generator takes the `Prims` record and a seed for the entropy stream and
returns its result together with the advanced seed.  The TS length parameter
is a JS `number`; lengths are modelled as `Int` so non-positive arguments are
representable.  The TS default arguments are mirrored by the `...Default`
wrappers. -/

/-- `SecureKeyGenerator.validateLength`. -/
def validateLength (length : Int) (methodName : String) : Except Err Unit :=
  if length ≤ 0 then .error (.invalidLength methodName) else .ok ()

/-- `SecureKeyGenerator.generateBase64IV`. -/
def generateBase64IV (P : Prims) (seed : Nat) (length : Int) :
    Except Err (String × Nat) := do
  validateLength length "generateBase64IV"
  let r := P.randomBytes seed length.toNat
  return (b64Encode r.1, r.2)

/-- `SecureKeyGenerator.generateBufferIV`. -/
def generateBufferIV (P : Prims) (seed : Nat) (length : Int) :
    Except Err (List Nat × Nat) := do
  validateLength length "generateBufferIV"
  return P.randomBytes seed length.toNat

/-- `SecureKeyGenerator.generateSecureUint8Array` (the Node branch of the
Web-Crypto availability check; both branches draw from the same entropy
model). -/
def generateSecureUint8Array (P : Prims) (seed : Nat) (length : Int) :
    Except Err (List Nat × Nat) := do
  validateLength length "generateSecureUint8Array"
  return P.randomBytes seed length.toNat

/-- `SecureKeyGenerator.generateWebCryptoIV`. -/
def generateWebCryptoIV (P : Prims) (seed : Nat) (length : Int) :
    Except Err (List Nat × Nat) := do
  validateLength length "generateWebCryptoIV"
  generateSecureUint8Array P seed length

/-- `SecureKeyGenerator.generateBase64Salt`. -/
def generateBase64Salt (P : Prims) (seed : Nat) (length : Int) :
    Except Err (String × Nat) := do
  validateLength length "generateBase64Salt"
  let r := P.randomBytes seed length.toNat
  return (b64Encode r.1, r.2)

/-- `SecureKeyGenerator.generateBufferSalt`. -/
def generateBufferSalt (P : Prims) (seed : Nat) (length : Int) :
    Except Err (List Nat × Nat) := do
  validateLength length "generateBufferSalt"
  return P.randomBytes seed length.toNat

/-- `SecureKeyGenerator.generateBase64SecretKey`. -/
def generateBase64SecretKey (P : Prims) (seed : Nat) (length : Int) :
    Except Err (String × Nat) := do
  validateLength length "generateBase64SecretKey"
  let r := P.randomBytes seed length.toNat
  return (b64Encode r.1, r.2)

/-- `SecureKeyGenerator.generateBufferSecretKey`. -/
def generateBufferSecretKey (P : Prims) (seed : Nat) (length : Int) :
    Except Err (List Nat × Nat) := do
  validateLength length "generateBufferSecretKey"
  return P.randomBytes seed length.toNat

/-- `generateBase64Salt()` with its TS default length `SALT_LENGTH`. -/
def generateBase64SaltDefault (P : Prims) (seed : Nat) : Except Err (String × Nat) :=
  generateBase64Salt P seed (CRYPTO_CONFIG.BYTE_LENGTHS.SALT : Int)

/-- `generateWebCryptoIV()` with its TS default length `WEB_CRYPTO_IV_LENGTH`. -/
def generateWebCryptoIVDefault (P : Prims) (seed : Nat) : Except Err (List Nat × Nat) :=
  generateWebCryptoIV P seed (CRYPTO_CONFIG.BYTE_LENGTHS.WEB_CRYPTO_IV : Int)

/-! ### EncryptionService (`encryptionService.ts`) -/

/-- The `EncryptionParameters` envelope interface. -/
structure EncryptionParameters where
  salt : String
  iv : String
  cipherText : String
deriving DecidableEq

/-- `EncryptionService.deriveKeyWithArgon2`: Argon2id over the secret key and
the base64-decoded salt, with `CRYPTO_CONFIG` cost parameters and a
32-byte raw hash (the imported AES key). -/
def deriveKeyWithArgon2 (P : Prims) (secretKey salt : String) : List Nat :=
  P.argon2Hash secretKey
    ⟨Argon2Variant.argon2id, CRYPTO_CONFIG.BYTE_LENGTHS.SECRET_KEY, b64DecodeStr salt,
      CRYPTO_CONFIG.ARGON2_PARAMETERS.MEMORY_COST, CRYPTO_CONFIG.ARGON2_PARAMETERS.TIME_COST,
      CRYPTO_CONFIG.ARGON2_PARAMETERS.PARALLELISM⟩

/-- `EncryptionService.encryptBuffer`: AES-GCM over the UTF-8 bytes of the
value. -/
def encryptBuffer (P : Prims) (webCryptoIv key : List Nat) (value : String) :
    Except Err (List Nat) :=
  P.aeadEncrypt webCryptoIv key (P.utf8Encode value)

/-- `EncryptionService.encrypt`. -/
def encrypt (P : Prims) (seed : Nat) (value secretKey : String) :
    Except Err (EncryptionParameters × Nat) := do
  let s ← generateBase64SaltDefault P seed
  let iv ← generateWebCryptoIVDefault P s.2
  let key := deriveKeyWithArgon2 P secretKey s.1
  let encryptedBuffer ← encryptBuffer P iv.1 key value
  return (⟨s.1, b64Encode iv.1, b64Encode encryptedBuffer⟩, iv.2)

/-- JS destructuring `const (salt, iv, cipherText) = parsedData`: destructuring
`null` throws a TypeError; property access on any other non-object value
yields `undefined` (modelled as `none`). -/
def destructureEnvelopeProps : Json → Except Err (Option Json × Option Json × Option Json)
  | .null => .error .typeError
  | .obj m => .ok (jsonObjGet m "salt", jsonObjGet m "iv", jsonObjGet m "cipherText")
  | _ => .ok (none, none, none)

/-- `EncryptionService.validateParsedData`: `!salt || !iv || !cipherText`
throws. -/
def validateParsedData (params : Json) : Except Err Unit := do
  let f ← destructureEnvelopeProps params
  if !(jsTruthy f.1) || !(jsTruthy f.2.1) || !(jsTruthy f.2.2) then
    .error (.malformedEnvelope "Missing required properties in encryption parameters.")
  else
    .ok ()

/-- `EncryptionService.parseEncryptedData`: empty input and JSON parse
failures (JS `SyntaxError`) are malformed-envelope failures, then the parsed
value is validated. -/
def parseEncryptedData (encryptedData : String) : Except Err Json :=
  if encryptedData = "" then .error (.malformedEnvelope "Encrypted data is required.")
  else
    match parseJson encryptedData with
    | none => .error (.malformedEnvelope "Unexpected token in JSON")
    | some parsedData =>
      match validateParsedData parsedData with
      | .ok _ => .ok parsedData
      | .error e => .error e

/-- `Buffer.from(v, 'base64')` requires a string; any other value throws a
TypeError. -/
def jsAsString : Option Json → Except Err String
  | some (.str s) => .ok s
  | _ => .error .typeError

/-- `EncryptionService.decrypt`. -/
def decrypt (P : Prims) (encryptedData secretKey : String) : Except Err String := do
  let parsedData ← parseEncryptedData encryptedData
  let f ← destructureEnvelopeProps parsedData
  let salt ← jsAsString f.1
  let iv ← jsAsString f.2.1
  let cipherText ← jsAsString f.2.2
  let key := deriveKeyWithArgon2 P secretKey salt
  let ivBuffer := b64DecodeStr iv
  let cipherBuffer := b64DecodeStr cipherText
  match P.aeadDecrypt ivBuffer key cipherBuffer with
  | some decryptedBuffer => .ok (P.utf8Decode decryptedBuffer)
  | none => .error .decryptionFailed

/-- Did a decrypt call fail with a malformed-envelope error? -/
def isMalformedError (r : Except Err String) : Bool :=
  match r with
  | .error (.malformedEnvelope _) => true
  | _ => false

/-- `JSON.stringify` of an `EncryptionParameters` object (field order is the
object-literal insertion order: salt, iv, cipherText).  The fields produced by
`encrypt` are base64 text, which needs no escaping. -/
def stringifyEnvelope (e : EncryptionParameters) : String :=
  "\x7b\"salt\":\"" ++ e.salt ++ "\",\"iv\":\"" ++ e.iv ++ "\",\"cipherText\":\"" ++
    e.cipherText ++ "\"\x7d"

/-- One escaped character of `JSON.stringify` on a string (the characters the
pipeline can produce). -/
def jsonEscapeChar (c : Char) : List Char :=
  if c = '"' then ['\\', '"']
  else if c = '\\' then ['\\', '\\']
  else if c = '\n' then ['\\', 'n']
  else if c = '\r' then ['\\', 'r']
  else if c = '\t' then ['\\', 't']
  else [c]

/-- `JSON.stringify` of a bare string value. -/
def jsonStringifyString (s : String) : String :=
  String.mk ('"' :: s.data.foldr (fun c acc => jsonEscapeChar c ++ acc) ['"'])

/-! ### EnvironmentEncryptionManager (`environmentEncryptionManager.ts`)

`Record<string, string>` objects are modelled as insertion-ordered
association lists (`recSet`/`recGet`), matching JS property order for the
non-integer-indexed keys environment variables use (JS reorders keys that are
canonical array indices; such keys are outside this model).  The environment
file is a single string of newline-joined lines; read/write/path-resolution
failures of the `AsyncFileManager` collaborator are injected through the
`readFail`/`resolveFail` flags, and a trace of `FsEvent`s records every
`EncryptionService.encrypt` invocation and every file write. -/

/-- JS object property write: existing key keeps its position. -/
def recSet (m : List (String × String)) (k v : String) : List (String × String) :=
  if m.any (fun p => p.1 == k) then m.map (fun p => if p.1 == k then (k, v) else p)
  else m ++ [(k, v)]

/-- JS object property read. -/
def recGet (m : List (String × String)) (k : String) : Option String :=
  (m.find? (fun p => p.1 == k)).map (fun p => p.2)

/-- `EnvironmentEncryptionManager.parseEnvironmentLine`. -/
def parseEnvironmentLine (line : String) : Option (String × String) :=
  let trimmedLine := jsTrim line
  if trimmedLine = "" ∨ ¬ jsContainsChar trimmedLine '=' then none
  else
    match jsSplit '=' trimmedLine with
    | [] => none
    | key :: valueParts =>
      let value := jsJoin '=' valueParts
      if key ≠ "" ∧ value ≠ "" then some (jsTrim key, jsTrim value) else none

/-- `EnvironmentEncryptionManager.extractEnvironmentVariables`. -/
def extractEnvironmentVariables (lines : List String) : List (String × String) :=
  lines.foldl (fun vars line =>
    match parseEnvironmentLine line with
    | some kv => recSet vars kv.1 kv.2
    | none => vars) []

/-- The by-value scan of `findEnvironmentVariableByKey` (`Object.entries`
order; first match wins). -/
def scanByValueFirst (m : List (String × String)) (lookupValue : String) :
    List (String × String) :=
  match m.find? (fun p => p.2 == lookupValue) with
  | some kv => [kv]
  | none => []

/-- `EnvironmentEncryptionManager.findEnvironmentVariableByKey`: the key
branch fires only when `allEnvVariables[lookupValue]` is truthy (present with
a non-empty value), otherwise the entries are scanned by value. -/
def findEnvironmentVariableByKey (allEnvVariables : List (String × String))
    (lookupValue : String) : List (String × String) :=
  match recGet allEnvVariables lookupValue with
  | some v =>
    if v ≠ "" then [(lookupValue, v)]
    else scanByValueFirst allEnvVariables lookupValue
  | none => scanByValueFirst allEnvVariables lookupValue

/-- `EnvironmentEncryptionManager.resolveVariablesToEncrypt`: unresolved
selectors contribute nothing (they are only logged); with no / empty
selectors every variable is a target. -/
def resolveVariablesToEncrypt (allEnvVariables : List (String × String))
    (envVariables : Option (List String)) : List (String × String) :=
  match envVariables with
  | some sels =>
    if sels.length > 0 then
      sels.foldl (fun variablesToEncrypt lookupValue =>
        (findEnvironmentVariableByKey allEnvVariables lookupValue).foldl
          (fun acc kv => recSet acc kv.1 kv.2) variablesToEncrypt) []
    else allEnvVariables
  | none => allEnvVariables

/-- JS `typeof v === 'object'` for a parsed JSON value. -/
def jsTypeofObject : Json → Bool
  | .obj _ => true
  | .arr _ => true
  | .null => true
  | _ => false

/-- JS `v === null` for a parsed JSON value. -/
def jsIsNull : Json → Bool
  | .null => true
  | _ => false

/-- `EnvironmentEncryptionManager.isAlreadyEncrypted`: brace-probe on the
trimmed value, then a JSON parse whose failure is swallowed (`false`), then
the three-field check. -/
def isAlreadyEncrypted (value : String) : Bool :=
  if value = "" then false
  else
    let trimmedValue := jsTrim value
    if ! (jsStartsWith trimmedValue "\x7b" && jsEndsWith trimmedValue "\x7d") then false
    else
      match parseJson value with
      | none => false
      | some parsedData =>
        jsTypeofObject parsedData && ! jsIsNull parsedData &&
          jsHasProp parsedData "salt" && jsHasProp parsedData "iv" &&
          jsHasProp parsedData "cipherText"

/-- `EnvironmentEncryptionManager.encryptValueIfPlaintext`: already-encrypted
values come back unchanged (`Sum.inl`), plaintext is encrypted into a fresh
envelope object (`Sum.inr`). -/
def encryptValueIfPlaintext (P : Prims) (seed : Nat) (value secretKey : String) :
    Except Err ((String ⊕ EncryptionParameters) × Nat) :=
  if isAlreadyEncrypted value then .ok (.inl value, seed)
  else do
    let r ← encrypt P seed value secretKey
    return (.inr ⟨r.1.salt, r.1.iv, r.1.cipherText⟩, r.2)

/-- `EnvironmentEncryptionManager.updateEnvironmentFileLines`. -/
def updateEnvironmentFileLines (existingLines : List String)
    (envVariable value : String) : List String :=
  let updatedLines := existingLines.map (fun line =>
    if jsStartsWith line (envVariable ++ "=") then envVariable ++ "=" ++ value
    else line)
  if existingLines.any (fun line => jsStartsWith line (envVariable ++ "=")) then
    updatedLines
  else updatedLines ++ [envVariable ++ "=" ++ value]

/-- File-system / crypto trace events: each `EncryptionService.encrypt`
invocation and each file write. -/
inductive FsEvent where
  | encryptVar (key : String)
  | write (content : String)
deriving DecidableEq

/-- Is an event an encrypt invocation? -/
def isEncryptEvent : FsEvent → Bool
  | .encryptVar _ => true
  | .write _ => false

/-- `EnvironmentEncryptionManager.encryptVariableValuesInFileLines`: the
`for (const (key, value) of Object.entries(variablesToEncrypt))` loop.
Empty values are skipped; `!encryptedValue || encryptedValue === value`
skips already-encrypted values; otherwise the lines are rewritten with the
JSON-stringified result and the counter incremented.  The event list gains
`encryptVar key` exactly when `EncryptionService.encrypt` is invoked. -/
def encryptVariableValuesInFileLines (P : Prims) (secretKeyVariable : String) :
    Nat → List String → List (String × String) → Nat → List FsEvent →
    Except Err (List String × Nat × Nat) × List FsEvent
  | seed, updatedLines, [], encryptedCount, evs =>
    (.ok (updatedLines, encryptedCount, seed), evs)
  | seed, updatedLines, (key, value) :: rest, encryptedCount, evs =>
    if value = "" then
      encryptVariableValuesInFileLines P secretKeyVariable seed updatedLines rest
        encryptedCount evs
    else
      let evs' := if isAlreadyEncrypted (jsTrim value) then evs
        else evs ++ [.encryptVar key]
      match encryptValueIfPlaintext P seed (jsTrim value) secretKeyVariable with
      | .error e => (.error e, evs')
      | .ok (.inl s, seed') =>
        if s = "" ∨ s = value then
          encryptVariableValuesInFileLines P secretKeyVariable seed' updatedLines rest
            encryptedCount evs'
        else
          encryptVariableValuesInFileLines P secretKeyVariable seed'
            (updateEnvironmentFileLines updatedLines key (jsonStringifyString s)) rest
            (encryptedCount + 1) evs'
      | .ok (.inr env, seed') =>
        encryptVariableValuesInFileLines P secretKeyVariable seed'
          (updateEnvironmentFileLines updatedLines key (stringifyEnvelope env)) rest
          (encryptedCount + 1) evs'

/-- `content.split('\n')` of `readEnvironmentFileAsLines`. -/
def splitNl (content : String) : List String := jsSplit '\n' content

/-- `lines.join('\n')` of `writeEnvironmentFileLines`. -/
def joinNl (lines : List String) : String := jsJoin '\n' lines

/-- `EnvironmentEncryptionManager.encryptAndUpdateEnvironmentVariables` over
an explicit file state: read the file as lines, extract the variables,
resolve the targets, rewrite the lines in memory, then write the whole
content once.  `readFail` injects a failure of the initial
read / path resolution, `resolveFail` a failure of the `resolveFilePath`
call made just before the write; either failure (or an encryption error)
propagates and the file content is returned unchanged. -/
def encryptAndUpdateEnvironmentVariables (P : Prims) (seed : Nat)
    (readFail resolveFail : Bool) (fileContent : String)
    (secretKeyVariable : String) (envVariables : Option (List String)) :
    Except Err Unit × String × List FsEvent :=
  if readFail then (.error .fileAccess, fileContent, [])
  else
    let envFileLines := splitNl fileContent
    let allEnvVariables := extractEnvironmentVariables envFileLines
    let variablesToEncrypt := resolveVariablesToEncrypt allEnvVariables envVariables
    match encryptVariableValuesInFileLines P secretKeyVariable seed envFileLines
        variablesToEncrypt 0 [] with
    | (.error e, evs) => (.error e, fileContent, evs)
    | (.ok r, evs) =>
      if resolveFail then (.error .fileAccess, fileContent, evs)
      else
        let content := joinNl r.1
        (.ok (), content, evs ++ [.write content])

/-! ### Concrete primitives for evaluating the model

A deterministic instantiation of `Prims` satisfying the contracts the
theorems assume: a counter-based entropy stream, a length-preserving
"AEAD" that appends a one-byte tag, and an injective three-bytes-per-
character text codec. -/

/-- Deterministic entropy stream. -/
def toyRandomBytes (seed n : Nat) : List Nat × Nat :=
  ((List.range n).map (fun i => (seed + i) % 256), seed + 1)

/-- Three bytes per character (code points are below `2^24`). -/
def toyEncodeChars : List Char → List Nat
  | [] => []
  | c :: cs =>
    c.toNat % 256 :: c.toNat / 256 % 256 :: c.toNat / 65536 % 256 :: toyEncodeChars cs

/-- Inverse of `toyEncodeChars`. -/
def toyDecodeChars : List Nat → List Char
  | a :: b :: c :: rest => Char.ofNat (a + 256 * b + 65536 * c) :: toyDecodeChars rest
  | _ => []

/-- Text encoder of the concrete instantiation. -/
def toyUtf8Encode (s : String) : List Nat := toyEncodeChars s.data

/-- Text decoder of the concrete instantiation. -/
def toyUtf8Decode (l : List Nat) : String := String.mk (toyDecodeChars l)

/-- The concrete `Prims` record. -/
def toyPrims : Prims :=
  ⟨toyRandomBytes, fun _ _ => [],
    fun _ _ m => .ok (m ++ [7]),
    fun _ _ c => if c = [] then none else some c.dropLast,
    toyUtf8Encode, toyUtf8Decode⟩

theorem toyRandomBytes_length (seed n : Nat) : ((toyRandomBytes seed n).1).length = n := by
  simp [toyRandomBytes]

theorem toyRandomBytes_lt (seed n : Nat) : ∀ b ∈ (toyRandomBytes seed n).1, b < 256 := by
  intro b hb
  simp only [toyRandomBytes, List.mem_map] at hb
  rcases hb with ⟨i, _, hi⟩
  omega

theorem char_toNat_lt (c : Char) : c.toNat < 1114112 := by
  have h := c.valid
  have he : c.toNat = c.val.toNat := rfl
  rcases h with h | h <;> omega

theorem toyDecode_toyEncode (l : List Char) : toyDecodeChars (toyEncodeChars l) = l := by
  induction l with
  | nil => rfl
  | cons c cs ih =>
    have hlt := char_toNat_lt c
    simp only [toyEncodeChars, toyDecodeChars, ih]
    have : c.toNat % 256 + 256 * (c.toNat / 256 % 256) + 65536 * (c.toNat / 65536 % 256)
        = c.toNat := by omega
    rw [this, Char.ofNat_toNat]

theorem toyUtf8_roundtrip (s : String) : toyUtf8Decode (toyUtf8Encode s) = s := by
  unfold toyUtf8Decode toyUtf8Encode
  rw [toyDecode_toyEncode]

theorem toyUtf8Encode_lt (s : String) : ∀ b ∈ toyUtf8Encode s, b < 256 := by
  unfold toyUtf8Encode
  induction s.data with
  | nil => intro b hb; simp [toyEncodeChars] at hb
  | cons c cs ih =>
    intro b hb
    simp only [toyEncodeChars, List.mem_cons] at hb
    rcases hb with h | h | h | h
    · omega
    · omega
    · omega
    · exact ih b h

theorem toyAead_roundtrip (iv key m ct : List Nat)
    (h : toyPrims.aeadEncrypt iv key m = .ok ct) :
    toyPrims.aeadDecrypt iv key ct = some m := by
  simp only [toyPrims, Except.ok.injEq] at h
  subst h
  simp [toyPrims]

/-! ### C3: decrypt rejects malformed envelopes -/

/-- Is the member `f` of an object literal missing, or present with an empty
string value? -/
def envFieldMissingOrEmpty (m : List (String × Json)) (f : String) : Bool :=
  match jsonObjGet m f with
  | none => true
  | some (.str s) => s == ""
  | some _ => false

theorem jsTruthy_of_missingOrEmpty (m : List (String × Json)) (f : String)
    (h : envFieldMissingOrEmpty m f = true) : jsTruthy (jsonObjGet m f) = false := by
  unfold envFieldMissingOrEmpty at h
  cases hx : jsonObjGet m f with
  | none => rfl
  | some j =>
    rw [hx] at h
    cases j with
    | str s =>
      simp only [beq_iff_eq] at h
      simp [jsTruthy, h]
    | null => rfl
    | bool b => simp at h
    | num lx => simp at h
    | arr es => simp at h
    | obj ms => simp at h

theorem decrypt_error_of_parse (P : Prims) (s k : String) (e : Err)
    (h : parseEncryptedData s = .error e) : decrypt P s k = .error e := by
  unfold decrypt
  rw [h]
  rfl

theorem parseEncryptedData_empty :
    parseEncryptedData "" = .error (.malformedEnvelope "Encrypted data is required.") := rfl

theorem parseEncryptedData_badjson (s : String) (hne : ¬ s = "")
    (h : parseJson s = none) :
    parseEncryptedData s = .error (.malformedEnvelope "Unexpected token in JSON") := by
  unfold parseEncryptedData
  rw [if_neg hne, h]

theorem validateParsedData_missing (m : List (String × Json))
    (hm : envFieldMissingOrEmpty m "salt" = true ∨ envFieldMissingOrEmpty m "iv" = true ∨
      envFieldMissingOrEmpty m "cipherText" = true) :
    validateParsedData (Json.obj m)
      = .error (.malformedEnvelope "Missing required properties in encryption parameters.") := by
  have h1 : validateParsedData (Json.obj m)
      = if !(jsTruthy (jsonObjGet m "salt")) || !(jsTruthy (jsonObjGet m "iv")) ||
          !(jsTruthy (jsonObjGet m "cipherText")) then
          .error (.malformedEnvelope "Missing required properties in encryption parameters.")
        else .ok () := rfl
  rw [h1]
  rcases hm with hm | hm | hm <;>
    simp [jsTruthy_of_missingOrEmpty _ _ hm]

/-- C3: for every input string `s` and passphrase `k`, `decrypt(s, k)` fails
with a malformed-envelope error whenever `s` is empty, `s` is not valid JSON,
or the parsed object is missing, or has an empty value for, any of `salt`,
`iv`, `cipherText` (the spec's example `decrypt('\x7b"salt":"x"\x7d', k)` is the
witness below). -/
theorem C3_decrypt_rejects_malformed (P : Prims) (s k : String)
    (h : s = "" ∨ parseJson s = none ∨
      ∃ m, parseJson s = some (Json.obj m) ∧
        (envFieldMissingOrEmpty m "salt" = true ∨ envFieldMissingOrEmpty m "iv" = true ∨
          envFieldMissingOrEmpty m "cipherText" = true)) :
    isMalformedError (decrypt P s k) = true := by
  rcases h with h | h | ⟨m, hp, hm⟩
  · subst h
    rw [decrypt_error_of_parse P _ k _ parseEncryptedData_empty]
    rfl
  · by_cases hne : s = ""
    · subst hne
      rw [decrypt_error_of_parse P _ k _ parseEncryptedData_empty]
      rfl
    · rw [decrypt_error_of_parse P s k _ (parseEncryptedData_badjson s hne h)]
      rfl
  · by_cases hne : s = ""
    · subst hne
      rw [decrypt_error_of_parse P _ k _ parseEncryptedData_empty]
      rfl
    · have hparse : parseEncryptedData s
          = .error (.malformedEnvelope "Missing required properties in encryption parameters.") := by
        unfold parseEncryptedData
        rw [if_neg hne]
        simp only [hp, validateParsedData_missing m hm]
      rw [decrypt_error_of_parse P s k _ hparse]
      rfl

/-- Witness for C3: the spec's concrete example, an envelope with only a
`salt` member. -/
theorem C3_decrypt_rejects_malformed_witness :
    isMalformedError (decrypt toyPrims "\x7b\"salt\":\"x\"\x7d" "k") = true :=
  C3_decrypt_rejects_malformed toyPrims _ "k"
    (Or.inr (Or.inr ⟨[("salt", Json.str "x")], by rfl, Or.inr (Or.inl (by rfl))⟩))

/-! ### C4: the already-encrypted classification -/

theorem encryptValueIfPlaintext_encrypts (P : Prims) (seed : Nat) (v sk : String)
    (h : isAlreadyEncrypted v = false) :
    encryptValueIfPlaintext P seed v sk
      = (encrypt P seed v sk).map
          (fun r => (Sum.inr ⟨r.1.salt, r.1.iv, r.1.cipherText⟩, r.2)) := by
  unfold encryptValueIfPlaintext
  rw [if_neg (by simp [h])]
  cases he : encrypt P seed v sk with
  | ok r => simp [he, Except.map]
  | error e => simp [he, Except.map]

theorem isAlreadyEncrypted_true_iff (v : String) :
    isAlreadyEncrypted v = true ↔
      (jsStartsWith (jsTrim v) "\x7b" = true ∧ jsEndsWith (jsTrim v) "\x7d" = true ∧
        ∃ m, parseJson v = some (Json.obj m) ∧ jsonObjHasProp m "salt" = true ∧
          jsonObjHasProp m "iv" = true ∧ jsonObjHasProp m "cipherText" = true) := by
  unfold isAlreadyEncrypted
  by_cases hv : v = ""
  · subst hv
    rw [if_pos rfl]
    constructor
    · intro h; exact absurd h (by simp)
    · intro ⟨hs, _⟩
      exact absurd hs (by decide)
  · rw [if_neg hv]
    by_cases hb : (jsStartsWith (jsTrim v) "\x7b" && jsEndsWith (jsTrim v) "\x7d") = true
    · rw [if_neg (by simp [hb])]
      rw [Bool.and_eq_true] at hb
      cases hp : parseJson v with
      | none =>
        constructor
        · intro h; exact absurd h (by simp)
        · rintro ⟨-, -, m, hm, -⟩; exact absurd hm (by simp)
      | some j =>
        cases j with
        | obj m =>
          simp only [jsTypeofObject, jsIsNull, jsHasProp, Bool.not_true, Bool.not_false,
            Bool.true_and, Bool.and_eq_true]
          constructor
          · rintro ⟨⟨hsalt, hiv⟩, hct⟩
            exact ⟨hb.1, hb.2, m, rfl, hsalt, hiv, hct⟩
          · rintro ⟨-, -, m', hm', hsalt, hiv, hct⟩
            obtain rfl : m' = m := by
              injection hm' with h1
              injection h1 with h2
              exact h2.symm
            exact ⟨⟨hsalt, hiv⟩, hct⟩
        | null =>
          constructor
          · intro h; exact absurd h (by simp [jsTypeofObject, jsIsNull])
          · rintro ⟨-, -, m, hm, -⟩; simp at hm
        | bool b =>
          constructor
          · intro h; exact absurd h (by simp [jsTypeofObject])
          · rintro ⟨-, -, m, hm, -⟩; simp at hm
        | num lx =>
          constructor
          · intro h; exact absurd h (by simp [jsTypeofObject])
          · rintro ⟨-, -, m, hm, -⟩; simp at hm
        | str s =>
          constructor
          · intro h; exact absurd h (by simp [jsTypeofObject])
          · rintro ⟨-, -, m, hm, -⟩; simp at hm
        | arr es =>
          constructor
          · intro h; exact absurd h (by simp [jsTypeofObject, jsIsNull, jsHasProp])
          · rintro ⟨-, -, m, hm, -⟩; simp at hm
    · have hb' : (jsStartsWith (jsTrim v) "\x7b" && jsEndsWith (jsTrim v) "\x7d") = false :=
        Bool.eq_false_iff.mpr hb
      rw [if_pos (by rw [hb']; rfl)]
      constructor
      · intro h; exact absurd h (by simp)
      · rintro ⟨hs, he, -⟩
        exact (hb (by rw [hs, he]; rfl)).elim

/-- C4: a value is classified "already encrypted" (and so skipped) iff its
trimmed text starts with a left brace and ends with a right brace and it
parses as a JSON object containing all three of `salt`, `iv`, `cipherText`;
the probe never throws (it is a total Boolean), and a value not so
classified - in particular a valid JSON object missing one of the three
fields - is passed to `EncryptionService.encrypt`. -/
theorem C4_already_encrypted_classification (v : String) :
    (isAlreadyEncrypted v = true ↔
      (jsStartsWith (jsTrim v) "\x7b" = true ∧ jsEndsWith (jsTrim v) "\x7d" = true ∧
        ∃ m, parseJson v = some (Json.obj m) ∧ jsonObjHasProp m "salt" = true ∧
          jsonObjHasProp m "iv" = true ∧ jsonObjHasProp m "cipherText" = true)) ∧
    (∀ (P : Prims) (seed : Nat) (sk : String), isAlreadyEncrypted v = false →
      encryptValueIfPlaintext P seed v sk
        = (encrypt P seed v sk).map
            (fun r => (Sum.inr ⟨r.1.salt, r.1.iv, r.1.cipherText⟩, r.2))) :=
  ⟨isAlreadyEncrypted_true_iff v,
   fun P seed sk h => encryptValueIfPlaintext_encrypts P seed v sk h⟩

/-- Witness for C4: a complete envelope is recognised via the
characterisation, and an unrelated JSON object (missing the three fields) is
fed to `encrypt`. -/
theorem C4_already_encrypted_classification_witness :
    isAlreadyEncrypted "\x7b\"salt\":\"a\",\"iv\":\"b\",\"cipherText\":\"c\"\x7d" = true ∧
    encryptValueIfPlaintext toyPrims 0 "\x7b\"a\":\"b\"\x7d" "k"
      = (encrypt toyPrims 0 "\x7b\"a\":\"b\"\x7d" "k").map
          (fun r => (Sum.inr ⟨r.1.salt, r.1.iv, r.1.cipherText⟩, r.2)) :=
  ⟨(C4_already_encrypted_classification _).1.mpr
      (by refine ⟨by rfl, by rfl, [("salt", Json.str "a"), ("iv", Json.str "b"),
        ("cipherText", Json.str "c")], by rfl, by rfl, by rfl, by rfl⟩),
   (C4_already_encrypted_classification _).2 toyPrims 0 "k" (by rfl)⟩

/-! ### C9: random-byte generator contracts -/

theorem validateLength_nonpos (len : Int) (m : String) (h : len ≤ 0) :
    validateLength len m = .error (.invalidLength m) := by
  unfold validateLength
  rw [if_pos h]

theorem validateLength_pos (len : Int) (m : String) (h : 0 < len) :
    validateLength len m = .ok () := by
  unfold validateLength
  rw [if_neg (by omega)]

theorem b64Encode_length (bs : List Nat) :
    (b64Encode bs).length = (bs.length + 2) / 3 * 4 := by
  have : (b64Encode bs).length = (b64EncodeBytes bs).length := rfl
  rw [this, b64EncodeBytes_length]

/-- C9: every random-byte generator (salt, IV, Web-Crypto IV, secret key, in
base64 and buffer form) fails with an `InvalidLength` error for length
`<= 0`; for positive lengths each returns exactly `length` random bytes (the
base64 forms encode exactly those bytes, so `generateBase64Salt(32)` is a
44-character base64 string — see the witness). -/
theorem C9_generator_length_contract (P : Prims) (seed : Nat) (len : Int) :
    (len ≤ 0 →
      generateBase64IV P seed len = .error (.invalidLength "generateBase64IV") ∧
      generateBufferIV P seed len = .error (.invalidLength "generateBufferIV") ∧
      generateWebCryptoIV P seed len = .error (.invalidLength "generateWebCryptoIV") ∧
      generateBase64Salt P seed len = .error (.invalidLength "generateBase64Salt") ∧
      generateBufferSalt P seed len = .error (.invalidLength "generateBufferSalt") ∧
      generateBase64SecretKey P seed len = .error (.invalidLength "generateBase64SecretKey") ∧
      generateBufferSecretKey P seed len = .error (.invalidLength "generateBufferSecretKey")) ∧
    (0 < len → (∀ s n, ((P.randomBytes s n).1).length = n) →
      (generateBufferIV P seed len = .ok (P.randomBytes seed len.toNat) ∧
        ((P.randomBytes seed len.toNat).1).length = len.toNat) ∧
      (generateWebCryptoIV P seed len = .ok (P.randomBytes seed len.toNat)) ∧
      (generateBufferSalt P seed len = .ok (P.randomBytes seed len.toNat)) ∧
      (generateBufferSecretKey P seed len = .ok (P.randomBytes seed len.toNat)) ∧
      (generateBase64IV P seed len
        = .ok (b64Encode (P.randomBytes seed len.toNat).1, (P.randomBytes seed len.toNat).2)) ∧
      (generateBase64Salt P seed len
        = .ok (b64Encode (P.randomBytes seed len.toNat).1, (P.randomBytes seed len.toNat).2) ∧
        (b64Encode (P.randomBytes seed len.toNat).1).length = (len.toNat + 2) / 3 * 4) ∧
      (generateBase64SecretKey P seed len
        = .ok (b64Encode (P.randomBytes seed len.toNat).1, (P.randomBytes seed len.toNat).2))) := by
  constructor
  · intro h
    refine ⟨?_, ?_, ?_, ?_, ?_, ?_, ?_⟩ <;>
      first
        | (unfold generateBase64IV; rw [validateLength_nonpos _ _ h]; rfl)
        | (unfold generateBufferIV; rw [validateLength_nonpos _ _ h]; rfl)
        | (unfold generateWebCryptoIV; rw [validateLength_nonpos _ _ h]; rfl)
        | (unfold generateBase64Salt; rw [validateLength_nonpos _ _ h]; rfl)
        | (unfold generateBufferSalt; rw [validateLength_nonpos _ _ h]; rfl)
        | (unfold generateBase64SecretKey; rw [validateLength_nonpos _ _ h]; rfl)
        | (unfold generateBufferSecretKey; rw [validateLength_nonpos _ _ h]; rfl)
  · intro h hrand
    refine ⟨⟨?_, hrand seed len.toNat⟩, ?_, ?_, ?_, ?_, ⟨?_, ?_⟩, ?_⟩
    · unfold generateBufferIV; rw [validateLength_pos _ _ h]; rfl
    · unfold generateWebCryptoIV generateSecureUint8Array
      rw [validateLength_pos _ _ h, validateLength_pos _ _ h]
      rfl
    · unfold generateBufferSalt; rw [validateLength_pos _ _ h]; rfl
    · unfold generateBufferSecretKey; rw [validateLength_pos _ _ h]; rfl
    · unfold generateBase64IV; rw [validateLength_pos _ _ h]; rfl
    · unfold generateBase64Salt; rw [validateLength_pos _ _ h]; rfl
    · rw [b64Encode_length, hrand seed len.toNat]
    · unfold generateBase64SecretKey; rw [validateLength_pos _ _ h]; rfl

/-- Witness for C9: `generateBase64Salt(0)` fails with `InvalidLength`, and
`generateBase64Salt(32)` on the concrete primitives is a 44-character base64
encoding of exactly 32 bytes. -/
theorem C9_generator_length_contract_witness :
    generateBase64Salt toyPrims 0 0 = .error (.invalidLength "generateBase64Salt") ∧
    generateBase64Salt toyPrims 0 32
      = .ok (b64Encode (toyPrims.randomBytes 0 32).1, (toyPrims.randomBytes 0 32).2) ∧
    (b64Encode (toyPrims.randomBytes 0 32).1).length = 44 := by
  refine ⟨((C9_generator_length_contract toyPrims 0 0).1 (by omega)).2.2.2.1, ?_, ?_⟩
  · exact (((C9_generator_length_contract toyPrims 0 32).2 (by omega)
      (fun s n => toyRandomBytes_length s n)).2.2.2.2.2.1).1
  · have := (((C9_generator_length_contract toyPrims 0 32).2 (by omega)
      (fun s n => toyRandomBytes_length s n)).2.2.2.2.2.1).2
    simpa using this

/-! ### C8: the parameters of encrypt -/

/-- C8: `encrypt` requests a fresh 32-byte salt (`BYTE_LENGTHS.SALT`) and
then a fresh 12-byte IV through the Web-Crypto generator
(`BYTE_LENGTHS.WEB_CRYPTO_IV = 12`, not the general `BYTE_LENGTHS.IV = 16`),
derives the key by Argon2id with output length 32, memory cost 262144,
time cost 4 and parallelism 3 over the base64-decoded salt, and returns the
salt, IV and AES-GCM ciphertext base64-encoded. -/
theorem C8_encrypt_parameters (P : Prims) (seed : Nat) (v k : String)
    (hrand : ∀ s n, ((P.randomBytes s n).1).length = n) :
    CRYPTO_CONFIG.BYTE_LENGTHS.SALT = 32 ∧
    CRYPTO_CONFIG.BYTE_LENGTHS.WEB_CRYPTO_IV = 12 ∧
    CRYPTO_CONFIG.BYTE_LENGTHS.IV = 16 ∧
    CRYPTO_CONFIG.ARGON2_PARAMETERS = ⟨262144, 4, 3⟩ ∧
    ((P.randomBytes seed 32).1).length = 32 ∧
    ((P.randomBytes (P.randomBytes seed 32).2 12).1).length = 12 ∧
    encrypt P seed v k
      = (P.aeadEncrypt (P.randomBytes (P.randomBytes seed 32).2 12).1
          (P.argon2Hash k ⟨Argon2Variant.argon2id, 32,
            b64DecodeStr (b64Encode (P.randomBytes seed 32).1), 262144, 4, 3⟩)
          (P.utf8Encode v)).map
          (fun ct => (⟨b64Encode (P.randomBytes seed 32).1,
            b64Encode (P.randomBytes (P.randomBytes seed 32).2 12).1,
            b64Encode ct⟩, (P.randomBytes (P.randomBytes seed 32).2 12).2)) :=
  ⟨rfl, rfl, rfl, rfl, hrand seed 32, hrand (P.randomBytes seed 32).2 12, rfl⟩

/-- Witness for C8 on the concrete primitives. -/
theorem C8_encrypt_parameters_witness :
    ((toyPrims.randomBytes 0 32).1).length = 32 ∧
    encrypt toyPrims 0 "a" "b"
      = (toyPrims.aeadEncrypt (toyPrims.randomBytes (toyPrims.randomBytes 0 32).2 12).1
          (toyPrims.argon2Hash "b" ⟨Argon2Variant.argon2id, 32,
            b64DecodeStr (b64Encode (toyPrims.randomBytes 0 32).1), 262144, 4, 3⟩)
          (toyPrims.utf8Encode "a")).map
          (fun ct => (⟨b64Encode (toyPrims.randomBytes 0 32).1,
            b64Encode (toyPrims.randomBytes (toyPrims.randomBytes 0 32).2 12).1,
            b64Encode ct⟩, (toyPrims.randomBytes (toyPrims.randomBytes 0 32).2 12).2)) :=
  ⟨(C8_encrypt_parameters toyPrims 0 "a" "b" toyRandomBytes_length).2.2.2.2.1,
   (C8_encrypt_parameters toyPrims 0 "a" "b" toyRandomBytes_length).2.2.2.2.2.2⟩

/-! ### Facts about `parseEnvironmentLine` -/

theorem dropWhile_eq_nil_all (p : Char → Bool) :
    ∀ (l : List Char), l.dropWhile p = [] → ∀ c ∈ l, p c := by
  intro l
  induction l with
  | nil => intro _ c hc; simp at hc
  | cons d ds ih =>
    intro h c hc
    by_cases hd : p d
    · simp only [List.dropWhile, hd] at h
      rcases List.mem_cons.mp hc with rfl | hc
      · exact hd
      · exact ih h c hc
    · simp [List.dropWhile, hd] at h

theorem trimChars_eq_nil_all (l : List Char) (h : trimChars l = []) :
    ∀ c ∈ l, isWsChar c := by
  unfold trimChars at h
  rw [List.reverse_eq_nil_iff] at h
  have h2 : ∀ c ∈ (l.dropWhile isWsChar).reverse, isWsChar c :=
    dropWhile_eq_nil_all _ _ h
  have h3 : ∀ c ∈ l.dropWhile isWsChar, isWsChar c := by
    intro c hc; exact h2 c (List.mem_reverse.mpr hc)
  intro c hc
  rcases dropWhile_is_suffix isWsChar l with ⟨t, ht⟩
  rw [ht] at hc
  rcases List.mem_append.mp hc with hc | hc
  · -- c is in the dropped whitespace prefix
    have := List.takeWhile_append_dropWhile (p := isWsChar) (l := l)
    have hteq : t = l.takeWhile isWsChar := by
      have := congrArg (fun x => x) ht
      -- both t ++ dropWhile and takeWhile ++ dropWhile equal l
      have h4 : t ++ l.dropWhile isWsChar = l.takeWhile isWsChar ++ l.dropWhile isWsChar := by
        rw [← ht, List.takeWhile_append_dropWhile]
      exact List.append_cancel_right h4
    rw [hteq] at hc
    exact List.mem_takeWhile_imp hc
  · exact h3 c hc

theorem trimChars_ne_nil_of_mem (l : List Char) (c : Char) (hc : c ∈ l)
    (hw : ¬ isWsChar c) : trimChars l ≠ [] := by
  intro h
  exact hw (trimChars_eq_nil_all l h c hc)

theorem jsTrim_idem (s : String) : jsTrim (jsTrim s) = jsTrim s := by
  unfold jsTrim
  exact String.ext (by simpa using trimChars_idem s.data)

theorem parseEnvironmentLine_inv (line k v : String)
    (h : parseEnvironmentLine line = some (k, v)) :
    ∃ key value : String,
      (jsTrim line).data = key.data ++ '=' :: value.data ∧
      k = jsTrim key ∧ v = jsTrim value ∧
      key ≠ "" ∧ value ≠ "" ∧ '=' ∉ key.data := by
  unfold parseEnvironmentLine at h
  by_cases hcond : jsTrim line = "" ∨ ¬ jsContainsChar (jsTrim line) '='
  · rw [if_pos hcond] at h; exact absurd h (by simp)
  · rw [if_neg hcond] at h
    cases hsp : splitSepChars '=' [] (jsTrim line).data with
    | nil => exact absurd hsp (splitSepChars_ne_nil '=' [] (jsTrim line).data)
    | cons kd ps =>
      have hs : jsSplit '=' (jsTrim line) = String.mk kd :: ps.map String.mk := by
        unfold jsSplit
        rw [hsp]
        rfl
      rw [hs] at h
      simp only at h
      by_cases hkv : String.mk kd ≠ "" ∧ jsJoin '=' (ps.map String.mk) ≠ ""
      · rw [if_pos hkv] at h
        injection h with h1
        have hk : k = jsTrim (String.mk kd) := (congrArg Prod.fst h1).symm
        have hv : v = jsTrim (jsJoin '=' (ps.map String.mk)) := (congrArg Prod.snd h1).symm
        have hjoin : joinSepChars '=' (kd :: ps) = (jsTrim line).data := by
          have := joinSepChars_splitSepChars '=' (jsTrim line).data []
          rw [hsp] at this
          simpa using this
        have hps : ps ≠ [] := by
          intro hnil
          apply hkv.2
          rw [hnil]
          rfl
        have hvaldata : (jsJoin '=' (ps.map String.mk)).data = joinSepChars '=' ps := by
          unfold jsJoin
          have : (ps.map String.mk).map String.data = ps := by
            rw [List.map_map]
            have hid : (String.data ∘ String.mk) = id := rfl
            rw [hid, List.map_id]
          rw [this]
        refine ⟨String.mk kd, jsJoin '=' (ps.map String.mk), ?_, hk, hv, hkv.1, hkv.2, ?_⟩
        · rw [hvaldata]
          rw [← hjoin, joinSepChars_cons_of_ne '=' kd ps hps]
        · exact not_sep_mem_splitSepChars '=' _ [] (by simp) kd (by rw [hsp]; exact List.mem_cons_self kd ps)
      · rw [if_neg hkv] at h
        exact absurd h (by simp)

theorem string_ne_empty_of_data_ne_nil {s : String} (h : s.data ≠ []) : s ≠ "" :=
  fun he => h (he ▸ rfl)

theorem parseEnvironmentLine_post (line k v : String)
    (h : parseEnvironmentLine line = some (k, v)) :
    k ≠ "" ∧ v ≠ "" ∧ jsTrim k = k ∧ jsTrim v = v ∧ '=' ∉ k.data ∧
    (∀ c ∈ k.data, c ∈ line.data) ∧ (∀ c ∈ v.data, c ∈ line.data) := by
  obtain ⟨key, value, heq, hk, hv, hkey, hvalue, hsep⟩ := parseEnvironmentLine_inv line k v h
  have hkdata : k.data = trimChars key.data := by rw [hk]; rfl
  have hvdata : v.data = trimChars value.data := by rw [hv]; rfl
  have hkeyne : key.data ≠ [] := fun hn => hkey (String.ext (by simp [hn]))
  have hvalne : value.data ≠ [] := fun hn => hvalue (String.ext (by simp [hn]))
  -- the head of the trimmed line is the head of `key` and is not whitespace
  obtain ⟨c0, kd0, hc0⟩ := List.exists_cons_of_ne_nil hkeyne
  have hc0head : (trimChars line.data).head? = some c0 := by
    have : (jsTrim line).data = trimChars line.data := rfl
    rw [← this, heq, hc0]
    rfl
  have hc0ws : ¬ isWsChar c0 := trimChars_head_not_ws line.data c0 hc0head
  -- the last of the trimmed line is the last of `value` and is not whitespace
  obtain ⟨c1, hc1⟩ : ∃ c1, value.data.getLast? = some c1 := by
    rcases List.exists_cons_of_ne_nil hvalne with ⟨x, xs, hx⟩
    rw [hx]
    exact ⟨(x :: xs).getLast (by simp), List.getLast?_eq_getLast _ _⟩
  have hc1last : (trimChars line.data).getLast? = some c1 := by
    have heq' : trimChars line.data = key.data ++ '=' :: value.data := heq
    rw [heq']
    rw [show (key.data ++ '=' :: value.data) = (key.data ++ ['=']) ++ value.data by simp]
    rw [getLast?_append_right _ _ hvalne]
    exact hc1
  have hc1ws : ¬ isWsChar c1 := trimChars_getLast_not_ws line.data c1 hc1last
  have hkne : k ≠ "" := by
    apply string_ne_empty_of_data_ne_nil
    rw [hkdata]
    exact trimChars_ne_nil_of_mem _ c0 (by rw [hc0]; simp) hc0ws
  have hvne : v ≠ "" := by
    apply string_ne_empty_of_data_ne_nil
    rw [hvdata]
    exact trimChars_ne_nil_of_mem _ c1 (List.mem_of_mem_getLast? hc1) hc1ws
  have hmemline : ∀ c ∈ trimChars line.data, c ∈ line.data := trimChars_subset line.data
  refine ⟨hkne, hvne, ?_, ?_, ?_, ?_, ?_⟩
  · rw [hk]; exact jsTrim_idem key
  · rw [hv]; exact jsTrim_idem value
  · intro hmem
    rw [hkdata] at hmem
    exact hsep (trimChars_subset _ _ hmem)
  · intro c hc
    rw [hkdata] at hc
    have : c ∈ key.data := trimChars_subset _ _ hc
    exact hmemline c (by rw [show trimChars line.data = key.data ++ '=' :: value.data from heq]; simp [this])
  · intro c hc
    rw [hvdata] at hc
    have : c ∈ value.data := trimChars_subset _ _ hc
    exact hmemline c (by rw [show trimChars line.data = key.data ++ '=' :: value.data from heq]; simp [this])

/-! ### C7: selector resolution -/

/-- C7: a selector is resolved as a key name first (the key branch fires
exactly when the key is present with its non-empty parsed value); failing
that it resolves to the first entry whose value equals the selector, in
entry order (for variables parsed from a file this is first-occurrence file
order; JS reorders canonical-array-index keys, which are outside this
model); a selector matching neither key nor value yields the empty
contribution (the run does not fail: resolution is a total function); and
an omitted or empty selector list makes every parsed variable a target.
Parsed variables never carry an empty value (last clause), so presence of
the key coincides with the truthiness test of the code. -/
theorem C7_selector_resolution (vars : List (String × String)) :
    resolveVariablesToEncrypt vars none = vars ∧
    resolveVariablesToEncrypt vars (some []) = vars ∧
    (∀ sels, sels ≠ [] →
      resolveVariablesToEncrypt vars (some sels)
        = sels.foldl (fun acc s =>
            (findEnvironmentVariableByKey vars s).foldl
              (fun a kv => recSet a kv.1 kv.2) acc) []) ∧
    (∀ s v, recGet vars s = some v → v ≠ "" →
      findEnvironmentVariableByKey vars s = [(s, v)]) ∧
    (∀ s, recGet vars s = none →
      findEnvironmentVariableByKey vars s = scanByValueFirst vars s) ∧
    (∀ s kv, vars.find? (fun p => p.2 == s) = some kv → scanByValueFirst vars s = [kv]) ∧
    (∀ s, vars.find? (fun p => p.2 == s) = none → scanByValueFirst vars s = []) ∧
    (∀ line k v, parseEnvironmentLine line = some (k, v) → v ≠ "") := by
  refine ⟨rfl, rfl, ?_, ?_, ?_, ?_, ?_, ?_⟩
  · intro sels hne
    have hstep : resolveVariablesToEncrypt vars (some sels)
        = if sels.length > 0 then
            sels.foldl (fun acc s =>
              (findEnvironmentVariableByKey vars s).foldl
                (fun a kv => recSet a kv.1 kv.2) acc) []
          else vars := rfl
    rw [hstep, if_pos (by cases sels with
      | nil => exact absurd rfl hne
      | cons a l => simp)]
  · intro s v hget hv
    unfold findEnvironmentVariableByKey
    rw [hget]
    show (if v ≠ "" then [(s, v)] else scanByValueFirst vars s) = [(s, v)]
    rw [if_pos hv]
  · intro s hget
    unfold findEnvironmentVariableByKey
    rw [hget]
  · intro s kv hfind
    unfold scanByValueFirst
    rw [hfind]
  · intro s hfind
    unfold scanByValueFirst
    rw [hfind]
  · intro line k v h
    exact (parseEnvironmentLine_post line k v h).2.1

/-- Witness for C7: key resolution, value-based resolution to the first
matching entry, and a silently skipped unresolved selector. -/
theorem C7_selector_resolution_witness :
    resolveVariablesToEncrypt [("A", "x")] none = [("A", "x")] ∧
    findEnvironmentVariableByKey [("A", "x"), ("B", "x")] "A" = [("A", "x")] ∧
    findEnvironmentVariableByKey [("A", "x"), ("B", "x")] "x" = [("A", "x")] ∧
    findEnvironmentVariableByKey [("A", "x"), ("B", "x")] "zzz" = [] := by
  refine ⟨(C7_selector_resolution [("A", "x")]).1, ?_, ?_, ?_⟩
  · exact (C7_selector_resolution _).2.2.2.1 "A" "x" (by rfl) (by decide)
  · exact ((C7_selector_resolution _).2.2.2.2.1 "x" (by rfl)).trans
      ((C7_selector_resolution _).2.2.2.2.2.1 "x" ("A", "x") (by rfl))
  · exact ((C7_selector_resolution _).2.2.2.2.1 "zzz" (by rfl)).trans
      ((C7_selector_resolution _).2.2.2.2.2.2.1 "zzz" (by rfl))

/-! ### C10: raw-prefix matching of the line rewrite -/

theorem head_not_ws_of_trim_fixed (s : String) (h : jsTrim s = s) :
    ∀ hd, s.data.head? = some hd → ¬ isWsChar hd := by
  intro hd hh
  have hdata : trimChars s.data = s.data := congrArg String.data h
  exact trimChars_head_not_ws s.data hd (by rwa [hdata])

theorem getLast_not_ws_of_trim_fixed (s : String) (h : jsTrim s = s) :
    ∀ lst, s.data.getLast? = some lst → ¬ isWsChar lst := by
  intro lst hh
  have hdata : trimChars s.data = s.data := congrArg String.data h
  exact trimChars_getLast_not_ws s.data lst (by rwa [hdata])

theorem dropWhile_append_all (p : Char → Bool) :
    ∀ (pre l : List Char), (∀ c ∈ pre, p c) →
      (pre ++ l).dropWhile p = l.dropWhile p := by
  intro pre
  induction pre with
  | nil => intro l _; rfl
  | cons c cs ih =>
    intro l h
    have hc : p c := h c (by simp)
    simp only [List.cons_append, List.dropWhile, hc]
    exact ih l (fun d hd => h d (by simp [hd]))

theorem trimChars_ws_lead (pre l : List Char) (h : ∀ c ∈ pre, isWsChar c) :
    trimChars (pre ++ l) = trimChars l := by
  unfold trimChars
  rw [dropWhile_append_all _ pre l h]

theorem parseEnvironmentLine_build (pre : List Char) (k x : String)
    (hpre : ∀ c ∈ pre, isWsChar c)
    (hk : jsTrim k = k) (hkne : k ≠ "") (hsep : '=' ∉ k.data)
    (hx : jsTrim x = x) (hxne : x ≠ "") :
    parseEnvironmentLine (String.mk (pre ++ (k.data ++ '=' :: x.data))) = some (k, x) := by
  have hkd : k.data ≠ [] := fun hn => hkne (String.ext (by simp [hn]))
  have hxd : x.data ≠ [] := fun hn => hxne (String.ext (by simp [hn]))
  have htrim : jsTrim (String.mk (pre ++ (k.data ++ '=' :: x.data)))
      = String.mk (k.data ++ '=' :: x.data) := by
    unfold jsTrim
    refine String.ext ?_
    show trimChars (String.mk (pre ++ (k.data ++ '=' :: x.data))).data
        = k.data ++ '=' :: x.data
    rw [show (String.mk (pre ++ (k.data ++ '=' :: x.data))).data
        = pre ++ (k.data ++ '=' :: x.data) from rfl]
    rw [trimChars_ws_lead pre _ hpre]
    refine trimChars_eq_self _ ?_ ?_
    · intro hd hh
      rw [List.head?_append_of_ne_nil _ hkd] at hh
      exact head_not_ws_of_trim_fixed k hk hd hh
    · intro lst hh
      have hxl : ('=' :: x.data) ≠ [] := by simp
      rw [getLast?_append_right _ _ hxl] at hh
      rw [show ('=' :: x.data) = ['='] ++ x.data from rfl,
        getLast?_append_right _ _ hxd] at hh
      exact getLast_not_ws_of_trim_fixed x hx lst hh
  unfold parseEnvironmentLine
  rw [htrim]
  have hts : (String.mk (k.data ++ '=' :: x.data)) ≠ "" :=
    string_ne_empty_of_data_ne_nil (by simp)
  have htc : jsContainsChar (String.mk (k.data ++ '=' :: x.data)) '=' = true := by
    unfold jsContainsChar
    simp
  rw [if_neg (by
    simp only [hts, false_or]
    simp [htc])]
  have hsplit : splitSepChars '=' [] (k.data ++ '=' :: x.data)
      = k.data :: splitSepChars '=' [] x.data := by
    rw [splitSepChars_append_sep '=' k.data [] x.data hsep]
    simp
  have hsplit' : jsSplit '=' (String.mk (k.data ++ '=' :: x.data))
      = String.mk k.data :: (splitSepChars '=' [] x.data).map String.mk := by
    unfold jsSplit
    rw [show (String.mk (k.data ++ '=' :: x.data)).data
        = k.data ++ '=' :: x.data from rfl, hsplit]
    rfl
  rw [hsplit']
  have hjoin : jsJoin '=' ((splitSepChars '=' [] x.data).map String.mk) = x := by
    unfold jsJoin
    refine String.ext ?_
    show joinSepChars '=' (((splitSepChars '=' [] x.data).map String.mk).map String.data)
        = x.data
    rw [List.map_map]
    have hid : (String.data ∘ String.mk) = id := rfl
    rw [hid, List.map_id]
    simpa using joinSepChars_splitSepChars '=' x.data []
  show (let value := jsJoin '=' ((splitSepChars '=' [] x.data).map String.mk);
    if String.mk k.data ≠ "" ∧ value ≠ "" then
      some (jsTrim (String.mk k.data), jsTrim value) else none) = some (k, x)
  simp only [hjoin]
  rw [if_pos ⟨by simpa using hkne, hxne⟩]
  rw [show String.mk k.data = k from String.ext rfl, hk, hx]

theorem map_eq_self_of (l : List String) (f : String → String) (h : ∀ a ∈ l, f a = a) :
    l.map f = l := by
  induction l with
  | nil => rfl
  | cons a as ih =>
    simp only [List.map_cons, h a (by simp)]
    rw [ih (fun b hb => h b (by simp [hb]))]

/-- C10: the rewrite matches a target key `k` only by the raw (untrimmed)
prefix `k=`: every line whose raw text starts with `k=` — duplicates
included — is replaced, in place, by the same text `k=<value>`; if no raw
line starts with `k=` the line `k=<value>` is appended, so an assignment for
`k` written with leading whitespace is parsed as a variable (clause 3) yet
never matched (clause 4): the indented plaintext line survives and a
duplicate `k=<value>` line is appended (clause 5). -/
theorem C10_untrimmed_prefix_matching (k v x : String) (lines : List String)
    (hk : jsTrim k = k) (hkne : k ≠ "") (hsep : '=' ∉ k.data)
    (hx : jsTrim x = x) (hxne : x ≠ "") :
    (lines.any (fun l => jsStartsWith l (k ++ "=")) = true →
      updateEnvironmentFileLines lines k v
        = lines.map (fun l => if jsStartsWith l (k ++ "=") then k ++ "=" ++ v else l)) ∧
    (lines.any (fun l => jsStartsWith l (k ++ "=")) = false →
      updateEnvironmentFileLines lines k v = lines ++ [k ++ "=" ++ v]) ∧
    parseEnvironmentLine (" " ++ k ++ "=" ++ x) = some (k, x) ∧
    jsStartsWith (" " ++ k ++ "=" ++ x) (k ++ "=") = false ∧
    updateEnvironmentFileLines [" " ++ k ++ "=" ++ x] k v
      = [" " ++ k ++ "=" ++ x, k ++ "=" ++ v] := by
  have hkd : k.data ≠ [] := fun hn => hkne (String.ext (by simp [hn]))
  have hdataline : (" " ++ k ++ "=" ++ x).data = ' ' :: (k.data ++ '=' :: x.data) := by
    rw [String.data_append, String.data_append, String.data_append]
    simp
  have hparse : parseEnvironmentLine (" " ++ k ++ "=" ++ x) = some (k, x) := by
    have : (" " ++ k ++ "=" ++ x) = String.mk ([' '] ++ (k.data ++ '=' :: x.data)) := by
      refine String.ext ?_
      rw [hdataline]
      rfl
    rw [this]
    exact parseEnvironmentLine_build [' '] k x (by intro c hc; simp at hc; simp [hc, isWsChar])
      hk hkne hsep hx hxne
  have hnostart : jsStartsWith (" " ++ k ++ "=" ++ x) (k ++ "=") = false := by
    unfold jsStartsWith
    rw [hdataline, String.data_append]
    rcases List.exists_cons_of_ne_nil hkd with ⟨c0, kd0, hc0⟩
    have hc0ws : ¬ isWsChar c0 :=
      head_not_ws_of_trim_fixed k hk c0 (by rw [hc0]; rfl)
    have hc0sp : (c0 == ' ') = false := by
      refine Bool.eq_false_iff.mpr ?_
      intro hcon
      exact hc0ws (by rw [show c0 = ' ' from by exact_mod_cast beq_iff_eq.mp hcon]; rfl)
    rw [hc0]
    simp [List.isPrefixOf, hc0sp]
  refine ⟨?_, ?_, hparse, hnostart, ?_⟩
  · intro hany
    unfold updateEnvironmentFileLines
    rw [if_pos hany]
  · intro hany
    unfold updateEnvironmentFileLines
    rw [if_neg (by simp [hany])]
    have hall := List.any_eq_false.mp hany
    have hmap : lines.map (fun l => if jsStartsWith l (k ++ "=") then k ++ "=" ++ v else l)
        = lines := by
      apply map_eq_self_of
      intro a ha
      rw [if_neg (by simpa using hall a ha)]
    rw [hmap]
  · unfold updateEnvironmentFileLines
    rw [if_neg (by simp [hnostart])]
    simp [hnostart]

/-- Witness for C10 at concrete inputs. -/
theorem C10_untrimmed_prefix_matching_witness :
    parseEnvironmentLine " A=1" = some ("A", "1") ∧
    updateEnvironmentFileLines [" A=1"] "A" "ENV" = [" A=1", "A=ENV"] ∧
    updateEnvironmentFileLines ["A=1", "A=2"] "A" "ENV" = ["A=ENV", "A=ENV"] := by
  have h := C10_untrimmed_prefix_matching "A" "ENV" "1" ["A=1", "A=2"]
    (by rfl) (by decide) (by decide) (by rfl) (by decide)
  refine ⟨?_, ?_, ?_⟩
  · have := h.2.2.1
    simpa using this
  · have h2 := C10_untrimmed_prefix_matching "A" "ENV" "1" [" A=1"]
      (by rfl) (by decide) (by decide) (by rfl) (by decide)
    simpa using h2.2.2.2.2
  · have := h.1 (by rfl)
    simpa using this

/-! ### Parsing the stringified envelope -/

theorem skipWs_cons_not (c : Char) (h : isWsChar c = false) (l : List Char) :
    skipWsChars (c :: l) = c :: l := by
  simp [skipWsChars, List.dropWhile, h]

theorem jparseValue_str (g : Nat) (s : String) (rest : List Char)
    (hs : ∀ c ∈ s.data, plainChar c) :
    jparseValue (g + 1) ('"' :: (s.data ++ '"' :: rest)) = some (.str s, rest) := by
  simp only [jparseValue, skipWs_cons_not '"' (by decide),
    jparseString_plain s.data rest hs]
  rw [if_neg (show ¬ ('"' = lbrace) by decide),
    if_neg (show ¬ ('"' = '[') by decide)]
  simp

theorem jparseMembers_strMember (g : Nat) (acc : List (String × Json))
    (kd : List Char) (s : String) (rest : List Char)
    (hkey : ∀ c ∈ kd, plainChar c)
    (hs : ∀ c ∈ s.data, plainChar c) :
    jparseMembers (g + 2) acc
        ('"' :: (kd ++ '"' :: ':' :: '"' :: (s.data ++ '"' :: rest)))
      = (match skipWsChars rest with
         | ',' :: cs5 => jparseMembers (g + 1) (jsonInsert acc (String.mk kd) (.str s)) cs5
         | d :: cs5 =>
           if d = rbrace then
             some (.obj (jsonInsert acc (String.mk kd) (.str s)), cs5)
           else none
         | [] => none) := by
  simp only [jparseMembers, skipWs_cons_not '"' (by decide),
    jparseString_plain kd _ hkey,
    skipWs_cons_not ':' (by decide),
    jparseValue_str g s rest hs]

theorem stringifyEnvelope_data (e : EncryptionParameters) :
    (stringifyEnvelope e).data
      = lbrace :: ('"' :: ("salt".data ++ '"' :: ':' :: '"' :: (e.salt.data ++ '"' ::
          (',' :: ('"' :: ("iv".data ++ '"' :: ':' :: '"' :: (e.iv.data ++ '"' ::
          (',' :: ('"' :: ("cipherText".data ++ '"' :: ':' :: '"' ::
            (e.cipherText.data ++ '"' :: rbrace :: []))))))))))) := by
  unfold stringifyEnvelope
  simp only [String.data_append, List.append_assoc]
  rfl

theorem jparseValue_envelope (e : EncryptionParameters) (f : Nat)
    (hs : ∀ c ∈ e.salt.data, plainChar c) (hi : ∀ c ∈ e.iv.data, plainChar c)
    (hc : ∀ c ∈ e.cipherText.data, plainChar c) :
    jparseValue (f + 5) (stringifyEnvelope e).data
      = some (Json.obj [("salt", Json.str e.salt), ("iv", Json.str e.iv),
          ("cipherText", Json.str e.cipherText)], []) := by
  rw [stringifyEnvelope_data]
  simp only [jparseValue, skipWs_cons_not lbrace (by decide),
    skipWs_cons_not '"' (by decide), if_true,
    if_neg (show ¬ ('"' = rbrace) by decide)]
  simp only [jparseMembers_strMember (f + 2) [] ['s', 'a', 'l', 't'] e.salt
      (',' :: ('"' :: (['i', 'v'] ++ '"' :: ':' :: '"' :: (e.iv.data ++ '"' ::
        (',' :: ('"' :: (['c', 'i', 'p', 'h', 'e', 'r', 'T', 'e', 'x', 't'] ++ '"' :: ':' :: '"' ::
          (e.cipherText.data ++ '"' :: rbrace :: []))))))))
      (by decide) hs,
    skipWs_cons_not ',' (by decide)]
  rw [jparseMembers_strMember (f + 1)
      (jsonInsert [] (String.mk ['s', 'a', 'l', 't']) (.str e.salt)) ['i', 'v'] e.iv
      (',' :: ('"' :: (['c', 'i', 'p', 'h', 'e', 'r', 'T', 'e', 'x', 't'] ++ '"' :: ':' :: '"' ::
        (e.cipherText.data ++ '"' :: rbrace :: []))))
      (by decide) hi]
  simp only [skipWs_cons_not ',' (by decide)]
  rw [jparseMembers_strMember f
      (jsonInsert (jsonInsert [] (String.mk ['s', 'a', 'l', 't']) (.str e.salt))
        (String.mk ['i', 'v']) (.str e.iv))
      ['c', 'i', 'p', 'h', 'e', 'r', 'T', 'e', 'x', 't'] e.cipherText
      (rbrace :: []) (by decide) hc]
  rfl

theorem parseJson_stringifyEnvelope (e : EncryptionParameters)
    (hs : ∀ c ∈ e.salt.data, plainChar c) (hi : ∀ c ∈ e.iv.data, plainChar c)
    (hc : ∀ c ∈ e.cipherText.data, plainChar c) :
    parseJson (stringifyEnvelope e)
      = some (Json.obj [("salt", Json.str e.salt), ("iv", Json.str e.iv),
          ("cipherText", Json.str e.cipherText)]) := by
  unfold parseJson
  have hlen : (stringifyEnvelope e).data.length + 1
      = (e.salt.data.length + e.iv.data.length + e.cipherText.data.length + 31) + 5 := by
    rw [stringifyEnvelope_data]
    simp only [List.length_cons, List.length_append]
    simp
    omega
  rw [hlen, jparseValue_envelope e _ hs hi hc]
  rfl

theorem stringifyEnvelope_ne_empty (e : EncryptionParameters) :
    stringifyEnvelope e ≠ "" := by
  apply string_ne_empty_of_data_ne_nil
  rw [stringifyEnvelope_data]
  simp

theorem plainChar_b64Alphabet : ∀ c ∈ b64Alphabet, plainChar c := by decide

theorem plainChar_b64Encode (bs : List Nat) :
    ∀ c ∈ (b64Encode bs).data, plainChar c := by
  intro c hc
  have hmem := b64EncodeBytes_mem bs c hc
  rcases hmem with h | h
  · exact plainChar_b64Alphabet c h
  · rw [h]; decide

theorem b64DecodeStr_b64Encode (bs : List Nat) (h : ∀ b ∈ bs, b < 256) :
    b64DecodeStr (b64Encode bs) = bs := by
  unfold b64DecodeStr
  have hd : (b64Encode bs).data = b64EncodeBytes bs := rfl
  rw [hd, b64_decode_encode bs h]
  rfl

theorem b64Encode_ne_empty (bs : List Nat) (h : bs ≠ []) :
    b64Encode bs ≠ "" := by
  apply string_ne_empty_of_data_ne_nil
  have hd : (b64Encode bs).data = b64EncodeBytes bs := rfl
  rw [hd]
  exact b64EncodeBytes_ne_nil bs h

theorem parseEncryptedData_envelope (e : EncryptionParameters)
    (hs : ∀ c ∈ e.salt.data, plainChar c) (hi : ∀ c ∈ e.iv.data, plainChar c)
    (hc : ∀ c ∈ e.cipherText.data, plainChar c)
    (hsne : e.salt ≠ "") (hine : e.iv ≠ "") (hcne : e.cipherText ≠ "") :
    parseEncryptedData (stringifyEnvelope e)
      = .ok (Json.obj [("salt", Json.str e.salt), ("iv", Json.str e.iv),
          ("cipherText", Json.str e.cipherText)]) := by
  unfold parseEncryptedData
  rw [if_neg (stringifyEnvelope_ne_empty e), parseJson_stringifyEnvelope e hs hi hc]
  have hv : validateParsedData (Json.obj [("salt", Json.str e.salt), ("iv", Json.str e.iv),
      ("cipherText", Json.str e.cipherText)]) = .ok () := by
    have h1 : (e.salt == "") = false := beq_eq_false_iff_ne.mpr hsne
    have h2 : (e.iv == "") = false := beq_eq_false_iff_ne.mpr hine
    have h3 : (e.cipherText == "") = false := beq_eq_false_iff_ne.mpr hcne
    have hd : destructureEnvelopeProps (Json.obj [("salt", Json.str e.salt),
        ("iv", Json.str e.iv), ("cipherText", Json.str e.cipherText)])
        = .ok (some (Json.str e.salt), some (Json.str e.iv), some (Json.str e.cipherText)) := rfl
    unfold validateParsedData
    rw [hd]
    simp only [bind, Except.bind, jsTruthy, h1, h2, h3]
    simp
  simp only [hv]

theorem decrypt_envelope (P : Prims) (k : String) (e : EncryptionParameters)
    (hs : ∀ c ∈ e.salt.data, plainChar c) (hi : ∀ c ∈ e.iv.data, plainChar c)
    (hc : ∀ c ∈ e.cipherText.data, plainChar c)
    (hsne : e.salt ≠ "") (hine : e.iv ≠ "") (hcne : e.cipherText ≠ "") :
    decrypt P (stringifyEnvelope e) k
      = (match P.aeadDecrypt (b64DecodeStr e.iv) (deriveKeyWithArgon2 P k e.salt)
            (b64DecodeStr e.cipherText) with
         | some d => .ok (P.utf8Decode d)
         | none => .error .decryptionFailed) := by
  unfold decrypt
  rw [parseEncryptedData_envelope e hs hi hc hsne hine hcne]
  rfl

theorem toyAead_bytes (iv key m ct : List Nat) (hm : ∀ b ∈ m, b < 256)
    (h : toyPrims.aeadEncrypt iv key m = .ok ct) : ∀ b ∈ ct, b < 256 := by
  simp only [toyPrims, Except.ok.injEq] at h
  subst h
  intro b hb
  rcases List.mem_append.mp hb with hb | hb
  · exact hm b hb
  · simp at hb; omega

theorem toyAead_ne_nil (iv key m ct : List Nat)
    (h : toyPrims.aeadEncrypt iv key m = .ok ct) : ct ≠ [] := by
  simp only [toyPrims, Except.ok.injEq] at h
  subst h
  simp

/-- C1: the round trip.  If `encrypt` succeeds, then `decrypt` applied to the
JSON-stringified envelope with the same passphrase recovers the plaintext,
assuming the spec's contracts for the external primitives: the entropy source
returns the requested number of bytes with values below 256, AES-GCM
decryption inverts encryption, ciphertexts are nonempty byte lists, and the
text decoder inverts the text encoder. -/
theorem C1_round_trip (P : Prims) (seed seed2 : Nat) (p k : String)
    (e : EncryptionParameters)
    (hrandLen : ∀ s n, ((P.randomBytes s n).1).length = n)
    (hrandLt : ∀ s n, ∀ b ∈ (P.randomBytes s n).1, b < 256)
    (haeadRt : ∀ iv key m ct, P.aeadEncrypt iv key m = .ok ct →
      P.aeadDecrypt iv key ct = some m)
    (haeadLt : ∀ iv key m ct, (∀ b ∈ m, b < 256) → P.aeadEncrypt iv key m = .ok ct →
      ∀ b ∈ ct, b < 256)
    (haeadNe : ∀ iv key m ct, P.aeadEncrypt iv key m = .ok ct → ct ≠ [])
    (hutf8bytes : ∀ s, ∀ b ∈ P.utf8Encode s, b < 256)
    (hutf8 : ∀ s, P.utf8Decode (P.utf8Encode s) = s)
    (henc : encrypt P seed p k = .ok (e, seed2)) :
    decrypt P (stringifyEnvelope e) k = .ok p := by
  have hchar : encrypt P seed p k
      = (P.aeadEncrypt (P.randomBytes (P.randomBytes seed 32).2 12).1
          (deriveKeyWithArgon2 P k (b64Encode (P.randomBytes seed 32).1))
          (P.utf8Encode p)).map
          (fun ct => (⟨b64Encode (P.randomBytes seed 32).1,
            b64Encode (P.randomBytes (P.randomBytes seed 32).2 12).1,
            b64Encode ct⟩, (P.randomBytes (P.randomBytes seed 32).2 12).2)) := rfl
  rw [hchar] at henc
  cases hct : P.aeadEncrypt (P.randomBytes (P.randomBytes seed 32).2 12).1
      (deriveKeyWithArgon2 P k (b64Encode (P.randomBytes seed 32).1))
      (P.utf8Encode p) with
  | error err =>
    rw [hct] at henc
    simp [Except.map] at henc
  | ok ct =>
    rw [hct] at henc
    simp only [Except.map, Except.ok.injEq, Prod.mk.injEq] at henc
    have he : e = ⟨b64Encode (P.randomBytes seed 32).1,
        b64Encode (P.randomBytes (P.randomBytes seed 32).2 12).1, b64Encode ct⟩ := henc.1.symm
    subst he
    have hsb : (P.randomBytes seed 32).1 ≠ [] := by
      intro hn
      have := hrandLen seed 32
      rw [hn] at this
      simp at this
    have hib : (P.randomBytes (P.randomBytes seed 32).2 12).1 ≠ [] := by
      intro hn
      have := hrandLen (P.randomBytes seed 32).2 12
      rw [hn] at this
      simp at this
    rw [decrypt_envelope P k _
      (plainChar_b64Encode _) (plainChar_b64Encode _) (plainChar_b64Encode _)
      (b64Encode_ne_empty _ hsb) (b64Encode_ne_empty _ hib)
      (b64Encode_ne_empty _ (haeadNe _ _ _ _ hct))]
    simp only
    rw [b64DecodeStr_b64Encode _ (hrandLt (P.randomBytes seed 32).2 12),
      b64DecodeStr_b64Encode _ (haeadLt _ _ _ _ (hutf8bytes p) hct),
      haeadRt _ _ _ _ hct]
    show Except.ok (P.utf8Decode (P.utf8Encode p)) = Except.ok p
    rw [hutf8 p]

/-- Witness for C1 on the concrete primitives: the envelope produced by
`encrypt toyPrims 0 "a" "b"` decrypts back to `"a"`. -/
theorem C1_round_trip_witness :
    decrypt toyPrims
      (stringifyEnvelope ⟨"AAECAwQFBgcICQoLDA0ODxAREhMUFRYXGBkaGxwdHh8=",
        "AQIDBAUGBwgJCgsM", "YQAABw=="⟩) "b" = .ok "a" :=
  C1_round_trip toyPrims 0 2 "a" "b"
    ⟨"AAECAwQFBgcICQoLDA0ODxAREhMUFRYXGBkaGxwdHh8=", "AQIDBAUGBwgJCgsM", "YQAABw=="⟩
    toyRandomBytes_length toyRandomBytes_lt
    toyAead_roundtrip toyAead_bytes toyAead_ne_nil toyUtf8Encode_lt toyUtf8_roundtrip
    (by rfl)

theorem encryptLoop_events (P : Prims) (skv : String) :
    ∀ (targets : List (String × String)) (seed : Nat) (lines : List String)
      (cnt : Nat) (evs : List FsEvent),
      (∀ ev ∈ evs, isEncryptEvent ev = true) →
      ∀ ev ∈ (encryptVariableValuesInFileLines P skv seed lines targets cnt evs).2,
        isEncryptEvent ev = true := by
  intro targets
  induction targets with
  | nil =>
    intro seed lines cnt evs h ev hev
    simp only [encryptVariableValuesInFileLines] at hev
    exact h ev hev
  | cons kv rest ih =>
    obtain ⟨key, value⟩ := kv
    intro seed lines cnt evs h ev hev
    simp only [encryptVariableValuesInFileLines] at hev
    by_cases hv : value = ""
    · rw [if_pos hv] at hev
      exact ih seed lines cnt evs h ev hev
    · rw [if_neg hv] at hev
      have h' : ∀ ev ∈ (if isAlreadyEncrypted (jsTrim value) then evs
          else evs ++ [FsEvent.encryptVar key]), isEncryptEvent ev = true := by
        intro ev hev'
        by_cases ha : isAlreadyEncrypted (jsTrim value) = true
        · rw [if_pos ha] at hev'
          exact h ev hev'
        · rw [if_neg ha] at hev'
          rcases List.mem_append.mp hev' with hx | hx
          · exact h ev hx
          · simp at hx
            rw [hx]
            rfl
      cases hm : encryptValueIfPlaintext P seed (jsTrim value) skv with
      | error er =>
        rw [hm] at hev
        exact h' ev hev
      | ok r =>
        obtain ⟨sv, seed'⟩ := r
        cases sv with
        | inl s =>
          rw [hm] at hev
          simp only [] at hev
          by_cases hse : s = "" ∨ s = value
          · rw [if_pos hse] at hev
            exact ih seed' lines cnt _ h' ev hev
          · rw [if_neg hse] at hev
            exact ih seed' _ (cnt + 1) _ h' ev hev
        | inr env =>
          rw [hm] at hev
          simp only [] at hev
          exact ih seed' _ (cnt + 1) _ h' ev hev

/-- C2: a run of `encryptAndUpdateEnvironmentVariables` that succeeds emits
exactly one file write, as its last event, after every encryption of the loop;
a run that fails (read failure, path-resolution failure, or an encryption
error) returns the file content unchanged and emits no write event at all. -/
theorem C2_single_atomic_write (P : Prims) (seed : Nat) (readFail resolveFail : Bool)
    (fileContent secretKeyVariable : String) (envVariables : Option (List String))
    (r : Except Err Unit) (content : String) (evs : List FsEvent)
    (hrun : encryptAndUpdateEnvironmentVariables P seed readFail resolveFail fileContent
      secretKeyVariable envVariables = (r, content, evs)) :
    (r = .ok () → ∃ pre, (∀ ev ∈ pre, isEncryptEvent ev = true) ∧
      evs = pre ++ [FsEvent.write content]) ∧
    (∀ er, r = .error er → content = fileContent ∧
      ∀ ev ∈ evs, isEncryptEvent ev = true) := by
  unfold encryptAndUpdateEnvironmentVariables at hrun
  by_cases hrf : readFail = true
  · rw [if_pos hrf] at hrun
    injection hrun with h1 h2
    injection h2 with h2 h3
    subst h1; subst h2; subst h3
    constructor
    · intro hok; cases hok
    · intro er _
      exact ⟨rfl, by intro ev hev; simp at hev⟩
  · rw [if_neg hrf] at hrun
    simp only [] at hrun
    have hloopEvs := encryptLoop_events P secretKeyVariable
      (resolveVariablesToEncrypt (extractEnvironmentVariables (splitNl fileContent))
        envVariables) seed (splitNl fileContent) 0 []
      (by intro ev hev; simp at hev)
    cases hloop : encryptVariableValuesInFileLines P secretKeyVariable seed
        (splitNl fileContent)
        (resolveVariablesToEncrypt (extractEnvironmentVariables (splitNl fileContent))
          envVariables) 0 [] with
    | mk res levs =>
      rw [hloop] at hrun hloopEvs
      cases res with
      | error er =>
        simp only at hrun
        injection hrun with h1 h2
        injection h2 with h2 h3
        subst h1; subst h2; subst h3
        constructor
        · intro hok; cases hok
        · intro er2 _
          exact ⟨rfl, hloopEvs⟩
      | ok rr =>
        simp only at hrun
        by_cases hvf : resolveFail = true
        · rw [if_pos hvf] at hrun
          injection hrun with h1 h2
          injection h2 with h2 h3
          subst h1; subst h2; subst h3
          constructor
          · intro hok; cases hok
          · intro er2 _
            exact ⟨rfl, hloopEvs⟩
        · rw [if_neg hvf] at hrun
          injection hrun with h1 h2
          injection h2 with h2 h3
          subst h1; subst h2; subst h3
          constructor
          · intro _
            exact ⟨levs, hloopEvs, rfl⟩
          · intro er2 her
            cases her

/-- Witness for C2: a successful concrete run on the file `A=1` ends in a
single trailing write of the final content, preceded only by encrypt events. -/
theorem C2_single_atomic_write_witness :
    ∃ pre, (∀ ev ∈ pre, isEncryptEvent ev = true) ∧
      (encryptAndUpdateEnvironmentVariables toyPrims 0 false false "A=1" "KEY" none).2.2
        = pre ++ [FsEvent.write
            (encryptAndUpdateEnvironmentVariables toyPrims 0 false false "A=1" "KEY" none).2.1] :=
  (C2_single_atomic_write toyPrims 0 false false "A=1" "KEY" none
      (encryptAndUpdateEnvironmentVariables toyPrims 0 false false "A=1" "KEY" none).1
      (encryptAndUpdateEnvironmentVariables toyPrims 0 false false "A=1" "KEY" none).2.1
      (encryptAndUpdateEnvironmentVariables toyPrims 0 false false "A=1" "KEY" none).2.2
      rfl).1 (by rfl)

/-- No resolved target key matches the line by raw prefix. -/
def lineUntouched (keys : List String) (line : String) : Bool :=
  keys.all (fun k => ! jsStartsWith line (k ++ "="))

/-- Frame relation between input and output line lists: the output extends the
input positionally; a line no target key matches stays at its index; every
output line is the input line at the same index or a `k=v` line for a target
key `k` (in place within the input range, appended beyond it). -/
def linesFrame (keys : List String) (lines lines' : List String) : Prop :=
  lines.length ≤ lines'.length ∧
  (∀ (i : Nat) (line : String), lines[i]? = some line → lineUntouched keys line = true →
    lines'[i]? = some line) ∧
  (∀ (i : Nat) (line' : String), lines'[i]? = some line' →
    lines[i]? = some line' ∨ ∃ k v, k ∈ keys ∧ line' = k ++ "=" ++ v)

theorem linesFrame_refl (keys : List String) (lines : List String) :
    linesFrame keys lines lines :=
  ⟨le_refl _, fun _ _ h _ => h, fun _ _ h => .inl h⟩

theorem linesFrame_trans (keys : List String) (a b c : List String)
    (hab : linesFrame keys a b) (hbc : linesFrame keys b c) :
    linesFrame keys a c := by
  obtain ⟨hl1, hu1, hr1⟩ := hab
  obtain ⟨hl2, hu2, hr2⟩ := hbc
  refine ⟨le_trans hl1 hl2, ?_, ?_⟩
  · intro i line h hu
    exact hu2 i line (hu1 i line h hu) hu
  · intro i line' h
    rcases hr2 i line' h with h2 | h2
    · exact hr1 i line' h2
    · exact .inr h2

theorem getElem?_some_lt {A : Type} {l : List A} {i : Nat} {a : A}
    (h : l[i]? = some a) : i < l.length := by
  by_contra hlt
  rw [List.getElem?_eq_none (by omega)] at h
  cases h

theorem linesFrame_update (keys : List String) (lines : List String)
    (k v : String) (hk : k ∈ keys) :
    linesFrame keys lines (updateEnvironmentFileLines lines k v) := by
  unfold updateEnvironmentFileLines
  simp only []
  set f : String → String := fun line =>
    if jsStartsWith line (k ++ "=") then k ++ "=" ++ v else line with hf
  have hmapGet : ∀ (i : Nat) (line : String), lines[i]? = some line →
      (lines.map f)[i]? = some (f line) := by
    intro i line h
    rw [List.getElem?_map, h]
    rfl
  have hcase : ∀ (i : Nat) (line' : String), (lines.map f)[i]? = some line' →
      lines[i]? = some line' ∨ ∃ kk vv, kk ∈ keys ∧ line' = kk ++ "=" ++ vv := by
    intro i line' h
    rw [List.getElem?_map] at h
    cases hx : lines[i]? with
    | none => rw [hx] at h; cases h
    | some line =>
      rw [hx] at h
      injection h with h
      by_cases hp : jsStartsWith line (k ++ "=") = true
      · right
        refine ⟨k, v, hk, ?_⟩
        rw [← h, hf]
        simp [hp]
      · left
        rw [← h, hf]
        simp [hp]
  have huntouched : ∀ (i : Nat) (line : String), lines[i]? = some line →
      lineUntouched keys line = true → (lines.map f)[i]? = some line := by
    intro i line h hu
    have hnp : jsStartsWith line (k ++ "=") = false := by
      have := (List.all_eq_true.mp hu) k hk
      simpa using this
    rw [hmapGet i line h, hf]
    simp [hnp]
  by_cases hany : lines.any (fun line => jsStartsWith line (k ++ "=")) = true
  · rw [if_pos hany]
    refine ⟨by rw [List.length_map], ?_, ?_⟩
    · exact huntouched
    · exact hcase
  · rw [if_neg hany]
    refine ⟨by rw [List.length_append, List.length_map]; omega, ?_, ?_⟩
    · intro i line h hu
      have hi : i < (lines.map f).length := by
        rw [List.length_map]
        exact getElem?_some_lt h
      rw [List.getElem?_append, if_pos hi]
      exact huntouched i line h hu
    · intro i line' h
      by_cases hi : i < (lines.map f).length
      · rw [List.getElem?_append, if_pos hi] at h
        exact hcase i line' h
      · right
        refine ⟨k, v, hk, ?_⟩
        rw [List.getElem?_append_right (by omega)] at h
        have hlt : i - (lines.map f).length < 1 := by
          have := getElem?_some_lt h
          simpa using this
        have hi' : i - (lines.map f).length = 0 := by omega
        rw [hi'] at h
        injection h with h
        exact h.symm

theorem encryptLoop_linesFrame (P : Prims) (skv : String) (keys : List String) :
    ∀ (targets : List (String × String)) (seed : Nat) (lines : List String)
      (cnt : Nat) (evs : List FsEvent) (lines' : List String) (c s : Nat)
      (evs' : List FsEvent),
      (∀ kv ∈ targets, kv.1 ∈ keys) →
      encryptVariableValuesInFileLines P skv seed lines targets cnt evs
        = (.ok (lines', c, s), evs') →
      linesFrame keys lines lines' := by
  intro targets
  induction targets with
  | nil =>
    intro seed lines cnt evs lines' c s evs' _ hrun
    simp only [encryptVariableValuesInFileLines] at hrun
    injection hrun with h1 h2
    injection h1 with h1
    injection h1 with h1 h2
    subst h1
    exact linesFrame_refl keys lines
  | cons kv rest ih =>
    obtain ⟨key, value⟩ := kv
    intro seed lines cnt evs lines' c s evs' hmem hrun
    have hkey : key ∈ keys := hmem (key, value) (by simp)
    have hrest : ∀ kv ∈ rest, kv.1 ∈ keys := fun kv h => hmem kv (by simp [h])
    simp only [encryptVariableValuesInFileLines] at hrun
    by_cases hv : value = ""
    · rw [if_pos hv] at hrun
      exact ih seed lines cnt evs lines' c s evs' hrest hrun
    · rw [if_neg hv] at hrun
      cases hm : encryptValueIfPlaintext P seed (jsTrim value) skv with
      | error er =>
        rw [hm] at hrun
        simp only [] at hrun
        injection hrun with h1 h2
        cases h1
      | ok r =>
        obtain ⟨sv, seed'⟩ := r
        cases sv with
        | inl str =>
          rw [hm] at hrun
          simp only [] at hrun
          by_cases hse : str = "" ∨ str = value
          · rw [if_pos hse] at hrun
            exact ih seed' lines cnt _ lines' c s evs' hrest hrun
          · rw [if_neg hse] at hrun
            exact linesFrame_trans keys lines _ lines'
              (linesFrame_update keys lines key (jsonStringifyString str) hkey)
              (ih seed' _ (cnt + 1) _ lines' c s evs' hrest hrun)
        | inr env =>
          rw [hm] at hrun
          simp only [] at hrun
          exact linesFrame_trans keys lines _ lines'
            (linesFrame_update keys lines key (stringifyEnvelope env) hkey)
            (ih seed' _ (cnt + 1) _ lines' c s evs' hrest hrun)

/-- C6 (amended): a successful run rewrites lines only in place or by
appending.  The output line list extends the input positionally; every input
line that does not start with the raw prefix `k=` for any resolved target key
`k` keeps its text and its index; every output line is either the input line
at the same index or a `k=v` line for a resolved target key `k` — in place
within the input range, appended beyond it.  Matching is by raw untrimmed
prefix, so a comment or indented line beginning with a target key's `k=` is
not protected (see the counterexample). -/
theorem C6_targeted_line_rewrites (P : Prims) (seed : Nat)
    (readFail resolveFail : Bool) (fileContent secretKeyVariable : String)
    (envVariables : Option (List String)) (content' : String) (evs : List FsEvent)
    (hrun : encryptAndUpdateEnvironmentVariables P seed readFail resolveFail
      fileContent secretKeyVariable envVariables = (.ok (), content', evs)) :
    ∃ lines' : List String,
      content' = joinNl lines' ∧
      linesFrame ((resolveVariablesToEncrypt
          (extractEnvironmentVariables (splitNl fileContent)) envVariables).map
          Prod.fst)
        (splitNl fileContent) lines' := by
  unfold encryptAndUpdateEnvironmentVariables at hrun
  by_cases hrf : readFail = true
  · rw [if_pos hrf] at hrun
    injection hrun with h1 h2
    cases h1
  · rw [if_neg hrf] at hrun
    simp only [] at hrun
    cases hloop : encryptVariableValuesInFileLines P secretKeyVariable seed
        (splitNl fileContent)
        (resolveVariablesToEncrypt (extractEnvironmentVariables (splitNl fileContent))
          envVariables) 0 [] with
    | mk res levs =>
      rw [hloop] at hrun
      cases res with
      | error er =>
        simp only [] at hrun
        injection hrun with h1 h2
        cases h1
      | ok rr =>
        simp only [] at hrun
        by_cases hvf : resolveFail = true
        · rw [if_pos hvf] at hrun
          injection hrun with h1 h2
          cases h1
        · rw [if_neg hvf] at hrun
          injection hrun with h1 h2
          injection h2 with h2 h3
          obtain ⟨ls, c, s⟩ := rr
          refine ⟨ls, h2.symm, ?_⟩
          exact encryptLoop_linesFrame P secretKeyVariable _ _ seed _ 0 [] ls c s levs
            (fun kv h => List.mem_map_of_mem Prod.fst h) hloop

/-- Counterexample to C6 as stated: on the single-line file `# A=1` (a
comment) with no selectors, the run succeeds but the comment line does not
keep its original text — `parseEnvironmentLine` parses the comment as the
variable `# A=1` (key `# A`), and the raw line starts with `# A=`, so the
comment line itself is rewritten to an envelope assignment. -/
theorem C6_comment_line_rewritten :
    (encryptAndUpdateEnvironmentVariables toyPrims 0 false false "# A=1" "KEY" none).1
        = .ok () ∧
    (encryptAndUpdateEnvironmentVariables toyPrims 0 false false "# A=1" "KEY"
        none).2.1 ≠ "# A=1" :=
  ⟨rfl, by decide⟩

/-- Witness for the amended C6 on a concrete two-line file with a key
selector. -/
theorem C6_targeted_line_rewrites_witness :
    ∃ lines' : List String,
      (encryptAndUpdateEnvironmentVariables toyPrims 0 false false "A=1\nB=2" "KEY"
          (some ["A"])).2.1 = joinNl lines' ∧
      linesFrame ((resolveVariablesToEncrypt
          (extractEnvironmentVariables (splitNl "A=1\nB=2")) (some ["A"])).map
          Prod.fst)
        (splitNl "A=1\nB=2") lines' :=
  C6_targeted_line_rewrites toyPrims 0 false false "A=1\nB=2" "KEY" (some ["A"])
    (encryptAndUpdateEnvironmentVariables toyPrims 0 false false "A=1\nB=2" "KEY"
      (some ["A"])).2.1
    (encryptAndUpdateEnvironmentVariables toyPrims 0 false false "A=1\nB=2" "KEY"
      (some ["A"])).2.2
    (by rfl)

theorem stringifyEnvelope_data_concat (e : EncryptionParameters) :
    (stringifyEnvelope e).data
      = (lbrace :: '"' :: ("salt".data ++ '"' :: ':' :: '"' :: (e.salt.data ++ '"' :: ',' :: '"' ::
          ("iv".data ++ '"' :: ':' :: '"' :: (e.iv.data ++ '"' :: ',' :: '"' ::
          ("cipherText".data ++ '"' :: ':' :: '"' ::
            (e.cipherText.data ++ ['"']))))))) ++ [rbrace] := by
  rw [stringifyEnvelope_data]
  simp [List.append_assoc]

theorem jsTrim_stringifyEnvelope (e : EncryptionParameters) :
    jsTrim (stringifyEnvelope e) = stringifyEnvelope e := by
  unfold jsTrim
  rw [trimChars_eq_self]
  · intro hd h
    rw [stringifyEnvelope_data] at h
    injection h with h
    rw [← h]
    decide
  · intro lst h
    rw [stringifyEnvelope_data_concat, getLast?_append_right _ _ (List.cons_ne_nil _ _)] at h
    injection h with h
    rw [← h]
    decide

theorem stringifyEnvelope_startsWith_brace (e : EncryptionParameters) :
    jsStartsWith (stringifyEnvelope e) "\x7b" = true := by
  unfold jsStartsWith
  rw [stringifyEnvelope_data]
  rfl

theorem stringifyEnvelope_endsWith_brace (e : EncryptionParameters) :
    jsEndsWith (stringifyEnvelope e) "\x7d" = true := by
  unfold jsEndsWith
  rw [stringifyEnvelope_data_concat]
  simp [List.isSuffixOf, List.reverse_append, List.isPrefixOf]
  rfl

theorem isAlreadyEncrypted_stringifyEnvelope (e : EncryptionParameters)
    (hs : ∀ c ∈ e.salt.data, plainChar c) (hi : ∀ c ∈ e.iv.data, plainChar c)
    (hc : ∀ c ∈ e.cipherText.data, plainChar c) :
    isAlreadyEncrypted (stringifyEnvelope e) = true := by
  unfold isAlreadyEncrypted
  rw [if_neg (stringifyEnvelope_ne_empty e)]
  simp only [jsTrim_stringifyEnvelope, stringifyEnvelope_startsWith_brace,
    stringifyEnvelope_endsWith_brace, Bool.and_self, Bool.not_true, Bool.false_eq_true,
    if_false, parseJson_stringifyEnvelope e hs hi hc]
  rfl

theorem encryptLoop_noop (P : Prims) (skv : String) :
    ∀ (targets : List (String × String)) (seed3 : Nat) (lines : List String)
      (cnt : Nat) (evs : List FsEvent),
      (∀ kv ∈ targets, kv.2 = "" ∨
        (isAlreadyEncrypted kv.2 = true ∧ jsTrim kv.2 = kv.2)) →
      encryptVariableValuesInFileLines P skv seed3 lines targets cnt evs
        = (.ok (lines, cnt, seed3), evs) := by
  intro targets
  induction targets with
  | nil =>
    intro seed3 lines cnt evs _
    simp only [encryptVariableValuesInFileLines]
  | cons kv rest ih =>
    obtain ⟨key, value⟩ := kv
    intro seed3 lines cnt evs h
    have hkv := h (key, value) (by simp)
    have hrest : ∀ kv ∈ rest, kv.2 = "" ∨
        (isAlreadyEncrypted kv.2 = true ∧ jsTrim kv.2 = kv.2) :=
      fun kv hk => h kv (by simp [hk])
    simp only [encryptVariableValuesInFileLines]
    rcases hkv with hv | ⟨henc', htr⟩
    · simp only at hv
      rw [if_pos hv]
      exact ih seed3 lines cnt evs hrest
    · simp only at henc' htr
      have hvne : value ≠ "" := by
        intro h0
        rw [h0] at henc'
        exact absurd henc' (by decide)
      rw [if_neg hvne, htr, if_pos henc']
      have hstep : encryptValueIfPlaintext P seed3 value skv
          = .ok (.inl value, seed3) := by
        unfold encryptValueIfPlaintext
        rw [if_pos henc']
      rw [hstep]
      simp only []
      rw [if_pos (Or.inr trivial)]
      exact ih seed3 lines cnt evs hrest

/-- C5 (amended): every envelope written by a successful `encrypt` is
recognized on the next run — its stringified JSON is trim-fixed and classified
as already encrypted — and any loop pass whose resolved targets all carry
empty or already-encrypted (trim-fixed) values performs zero encryptions: the
line list, counter, seed and event trace come back unchanged.  File-level
idempotence as originally claimed fails when the extracted variable map
disagrees with the rewritten lines (see the counterexample). -/
theorem C5_second_run_zero_encryptions (P : Prims) (seed seed2 : Nat)
    (p k : String) (e : EncryptionParameters)
    (henc : encrypt P seed p k = .ok (e, seed2)) :
    jsTrim (stringifyEnvelope e) = stringifyEnvelope e ∧
    isAlreadyEncrypted (stringifyEnvelope e) = true ∧
    (∀ (skv : String) (targets : List (String × String)) (seed3 : Nat)
      (lines : List String) (cnt : Nat) (evs : List FsEvent),
      (∀ kv ∈ targets, kv.2 = "" ∨
        (isAlreadyEncrypted kv.2 = true ∧ jsTrim kv.2 = kv.2)) →
      encryptVariableValuesInFileLines P skv seed3 lines targets cnt evs
        = (.ok (lines, cnt, seed3), evs)) := by
  have hchar : encrypt P seed p k
      = (P.aeadEncrypt (P.randomBytes (P.randomBytes seed 32).2 12).1
          (deriveKeyWithArgon2 P k (b64Encode (P.randomBytes seed 32).1))
          (P.utf8Encode p)).map
          (fun ct => (⟨b64Encode (P.randomBytes seed 32).1,
            b64Encode (P.randomBytes (P.randomBytes seed 32).2 12).1,
            b64Encode ct⟩, (P.randomBytes (P.randomBytes seed 32).2 12).2)) := rfl
  rw [hchar] at henc
  cases hct : P.aeadEncrypt (P.randomBytes (P.randomBytes seed 32).2 12).1
      (deriveKeyWithArgon2 P k (b64Encode (P.randomBytes seed 32).1))
      (P.utf8Encode p) with
  | error er =>
    rw [hct] at henc
    simp [Except.map] at henc
  | ok ct =>
    rw [hct] at henc
    simp only [Except.map, Except.ok.injEq, Prod.mk.injEq] at henc
    have he : e = ⟨b64Encode (P.randomBytes seed 32).1,
        b64Encode (P.randomBytes (P.randomBytes seed 32).2 12).1, b64Encode ct⟩ :=
      henc.1.symm
    subst he
    refine ⟨jsTrim_stringifyEnvelope _, isAlreadyEncrypted_stringifyEnvelope _
      (plainChar_b64Encode _) (plainChar_b64Encode _) (plainChar_b64Encode _), ?_⟩
    intro skv targets seed3 lines cnt evs h
    exact encryptLoop_noop P skv targets seed3 lines cnt evs h

/-- Counterexample to C5 as stated: on the file `A=1\n A=2` (a duplicate
indented assignment shadows the first) with no selectors, the first run
succeeds, but the second run on its output performs an encryption of `A`
again (an `encryptVar` event) and changes the file content, so the rewrite is
not idempotent. -/
theorem C5_duplicate_key_reencrypted :
    (encryptAndUpdateEnvironmentVariables toyPrims 0 false false "A=1\n A=2" "KEY"
        none).1 = .ok () ∧
    FsEvent.encryptVar "A" ∈ (encryptAndUpdateEnvironmentVariables toyPrims 100 false
      false (encryptAndUpdateEnvironmentVariables toyPrims 0 false false "A=1\n A=2"
        "KEY" none).2.1 "KEY" none).2.2 ∧
    (encryptAndUpdateEnvironmentVariables toyPrims 100 false false
        (encryptAndUpdateEnvironmentVariables toyPrims 0 false false "A=1\n A=2"
          "KEY" none).2.1 "KEY" none).2.1
      ≠ (encryptAndUpdateEnvironmentVariables toyPrims 0 false false "A=1\n A=2"
          "KEY" none).2.1 :=
  ⟨rfl, by decide, by decide⟩

/-- Witness for the amended C5: the concrete envelope produced by
`encrypt toyPrims 0 "a" "b"` is classified as already encrypted, and a loop
over it as the single target is a no-op. -/
theorem C5_second_run_zero_encryptions_witness :
    isAlreadyEncrypted (stringifyEnvelope
      ⟨"AAECAwQFBgcICQoLDA0ODxAREhMUFRYXGBkaGxwdHh8=", "AQIDBAUGBwgJCgsM",
        "YQAABw=="⟩) = true ∧
    encryptVariableValuesInFileLines toyPrims "KEY" 5
      ["A=" ++ stringifyEnvelope
        ⟨"AAECAwQFBgcICQoLDA0ODxAREhMUFRYXGBkaGxwdHh8=", "AQIDBAUGBwgJCgsM",
          "YQAABw=="⟩]
      [("A", stringifyEnvelope
        ⟨"AAECAwQFBgcICQoLDA0ODxAREhMUFRYXGBkaGxwdHh8=", "AQIDBAUGBwgJCgsM",
          "YQAABw=="⟩)] 0 []
      = (.ok (["A=" ++ stringifyEnvelope
          ⟨"AAECAwQFBgcICQoLDA0ODxAREhMUFRYXGBkaGxwdHh8=", "AQIDBAUGBwgJCgsM",
            "YQAABw=="⟩], 0, 5), []) :=
  ⟨(C5_second_run_zero_encryptions toyPrims 0 2 "a" "b"
      ⟨"AAECAwQFBgcICQoLDA0ODxAREhMUFRYXGBkaGxwdHh8=", "AQIDBAUGBwgJCgsM",
        "YQAABw=="⟩ (by rfl)).2.1,
   (C5_second_run_zero_encryptions toyPrims 0 2 "a" "b"
      ⟨"AAECAwQFBgcICQoLDA0ODxAREhMUFRYXGBkaGxwdHh8=", "AQIDBAUGBwgJCgsM",
        "YQAABw=="⟩ (by rfl)).2.2 "KEY" _ 5 _ 0 []
     (by intro kv hkv; simp at hkv; rw [hkv]; exact Or.inr ⟨by decide, by decide⟩)⟩
